import Mathlib

/-!
Verification of the presence-aware real-time message delivery engine of the
chat-application repository (backend/socket_manager.py, backend/routes/messages.py,
backend/models.py, backend/bot.py).

The embedding is a sequential shallow embedding of the Socket.IO handlers:
each handler is a pure function from a server state (the two presence maps,
the message store, and the store's id counter) to a new server state together
with a trace of store operations and emitted events, in program order.

Modelling conventions:
* session ids (Socket.IO `sid`) are `Nat`;
* user identities (emails) are `String`;
* the MongoDB message collection is a `List Msg`; `insert_one` appends a
  message whose `_id` is the current counter value, mirroring that the store
  assigns a fresh unique id on every insert; `update_one` updates the first
  matching document (ids are unique in the real store);
* a client `message_id` argument is `Option Nat`: `none` stands for a string
  that fails `ObjectId.is_valid`, `some n` for a syntactically valid id;
* the bot's natural-language logic (`ai_bot.process_message`) is opaque: it
  is passed as a function argument `reply : String → String → String`;
* wall-clock timestamps are irrelevant to every property proved here and are
  omitted from the message record.
-/

namespace Chat

/-- Message status: the `"Sent" | "Delivered" | "Read"` string field
(models.py `MessageStatus`, `Literal["Sent", "Delivered", "Read"]`). -/
inductive Status where
  | sent
  | delivered
  | read
  deriving DecidableEq, Repr

/-- Numeric rank of a status in the lifecycle order Sent → Delivered → Read. -/
def Status.toNat : Status → Nat
  | .sent => 0
  | .delivered => 1
  | .read => 2

/-- Forward order on statuses: `a` is at or before `b` in the lifecycle. -/
def Status.le (a b : Status) : Prop := a.toNat ≤ b.toNat

/-- A persisted message document (models.py `Message`, sans timestamp):
`_id`, sender, recipient, content, `is_bot_response`, status. -/
structure Msg where
  id : Nat
  sender : String
  recipient : String
  content : String
  isBotResponse : Bool
  status : Status
  deriving DecidableEq, Repr

/-- Payload of the WebSocket `send_message` event: the `recipient` and
`content` fields, each `none` when the key is absent from the client dict. -/
structure MsgData where
  recipient : Option String
  content : Option String
  deriving DecidableEq, Repr

/-- An outbound Socket.IO event; the first argument is the target session id
(the `room=` argument in socket_manager.py). -/
inductive Event where
  | connected (target : Nat) (email : String)
  | message_sent (target : Nat) (payload : Msg)
  | new_message (target : Nat) (payload : Msg)
  | message_delivered (target : Nat) (mid : Nat)
  | message_read (target : Nat) (mid : Nat) (readBy : Option String)
  | user_typing (target : Nat) (sender : String) (isTyping : Bool)
  | online_status (target : Nat) (email : String) (isOnline : Bool)
  | error (target : Nat) (text : String)
  deriving DecidableEq, Repr

/-- One observable effect of a handler, in program order: a store insert, a
store status update, or an emitted event. -/
inductive Action where
  | insert (m : Msg)
  | updateStatus (mid : Nat) (s : Status)
  | emit (e : Event)
  deriving DecidableEq, Repr

/-- First-match association-list lookup (Python dict access). -/
def alookup {α β : Type} [DecidableEq α] : List (α × β) → α → Option β
  | [], _ => none
  | (a, b) :: rest, k => if a = k then some b else alookup rest k

/-- Python `set.add`: add an element to a handle set unless already present. -/
def setAdd (s : List Nat) (x : Nat) : List Nat := if x ∈ s then s else s ++ [x]

/-- `session_users[sid] = user`: overwrite-or-append on the session map. -/
def suSet : List (Nat × String) → Nat → String → List (Nat × String)
  | [], sid, u => [(sid, u)]
  | (s, v) :: rest, sid, u =>
    if s = sid then (sid, u) :: rest else (s, v) :: suSet rest sid u

/-- `del session_users[sid]`: remove the entry for a session id. -/
def suRemove : List (Nat × String) → Nat → List (Nat × String)
  | [], _ => []
  | (s, v) :: rest, sid => if s = sid then rest else (s, v) :: suRemove rest sid

/-- `connected_users.setdefault(user, set()).add(sid)` (socket_manager.py
connect, lines 60-62): create the entry if absent, then add the handle. -/
def cuAdd : List (String × List Nat) → String → Nat → List (String × List Nat)
  | [], u, sid => [(u, [sid])]
  | (v, s) :: rest, u, sid =>
    if v = u then (v, setAdd s sid) :: rest else (v, s) :: cuAdd rest u sid

/-- `connected_users[user].discard(sid)` followed by deleting the key when
the set becomes empty (socket_manager.py disconnect, lines 87-90). -/
def cuRemove : List (String × List Nat) → String → Nat → List (String × List Nat)
  | [], _, _ => []
  | (v, s) :: rest, u, sid =>
    if v = u then
      if s.erase sid = [] then rest else (v, s.erase sid) :: rest
    else (v, s) :: cuRemove rest u sid

/-- The server state of socket_manager.py: the two module-level presence maps
`connected_users` and `session_users`, plus the message store and its id
counter. -/
structure ServerState where
  connected_users : List (String × List Nat)
  session_users : List (Nat × String)
  messages : List Msg
  nextId : Nat
  deriving DecidableEq, Repr

/-- The state at process start: both maps empty, no messages. -/
def initState : ServerState := ⟨[], [], [], 0⟩

/-- `handles_for`: snapshot of a user's live connection handles; empty if the
user has no presence entry. -/
def handlesFor (st : ServerState) (u : String) : List Nat :=
  (alookup st.connected_users u).getD []

/-- `is_online` / `email in connected_users`: key presence in the registry. -/
def isOnline (st : ServerState) (u : String) : Bool :=
  (alookup st.connected_users u).isSome

/-- MongoDB `update_one(filter, set status)`: update the first document
matching `p`, returning the new collection and whether a document was
actually modified (`modified_count > 0`; a document already carrying the
target status is matched but not modified). -/
def dbUpdateOne (msgs : List Msg) (p : Msg → Bool) (s : Status) : List Msg × Bool :=
  match msgs with
  | [] => ([], false)
  | m :: rest =>
    if p m then
      ({ m with status := s } :: rest, decide (m.status ≠ s))
    else
      let r := dbUpdateOne rest p s
      (m :: r.1, r.2)

/-- Filter `{"_id": mid}`. -/
def byId (mid : Nat) : Msg → Bool := fun m => decide (m.id = mid)

/-- Filter `{"_id": mid, "recipient": u}` (mark_as_read's conditional update). -/
def byIdRecip (mid : Nat) (u : String) : Msg → Bool :=
  fun m => decide (m.id = mid ∧ m.recipient = u)

/-- `AIBot.BOT_EMAIL` (bot.py line 53). -/
def BOT_EMAIL : String := "whatsease@bot.com"

/-- The `connect` handler, successful-authentication path (socket_manager.py
lines 44-76): record the session mapping, add the handle to the user's
presence entry, and emit a `connected` event to the new session.  A failed
authentication refuses the connection and leaves the state untouched, so it
is not modelled as a transition. -/
def connect (st : ServerState) (sid : Nat) (user : String) : ServerState × List Action :=
  ({ st with
      session_users := suSet st.session_users sid user,
      connected_users := cuAdd st.connected_users user sid },
   [.emit (.connected sid user)])

/-- The `disconnect` handler (socket_manager.py lines 79-101): if the session
is known, discard its handle (deleting the presence entry if the handle set
becomes empty) and drop the session mapping. -/
def disconnect (st : ServerState) (sid : Nat) : ServerState × List Action :=
  match alookup st.session_users sid with
  | none => (st, [])
  | some user =>
    ({ st with
        connected_users :=
          if (alookup st.connected_users user).isSome then
            cuRemove st.connected_users user sid
          else st.connected_users,
        session_users := suRemove st.session_users sid },
     [])

/-- `sid → .emit (new_message payload)` for every handle of a fan-out list
(the `for recipient_sid in connected_users[...]` loops). -/
def fanout (hs : List Nat) (p : Msg) : List Action :=
  hs.map fun h => .emit (.new_message h p)

/-- Step 4 of `send_message` (socket_manager.py lines 156-193): if the
recipient has a presence entry, fan the message (payload status forced to
Delivered) to every live handle, update the stored status to Delivered and
notify the sender; else if the recipient is the bot, update to Delivered and
notify the sender without fan-out; else leave the message as Sent. -/
def deliverBranch (st : ServerState) (sid mid : Nat) (sender r c : String)
    (msgs0 : List Msg) : List Msg × List Action :=
  if (alookup st.connected_users r).isSome then
    ((dbUpdateOne msgs0 (byId mid) .delivered).1,
     fanout (handlesFor st r) ⟨mid, sender, r, c, false, .delivered⟩
       ++ [.updateStatus mid .delivered, .emit (.message_delivered sid mid)])
  else if r = BOT_EMAIL then
    ((dbUpdateOne msgs0 (byId mid) .delivered).1,
     [.updateStatus mid .delivered, .emit (.message_delivered sid mid)])
  else (msgs0, [])

/-- The bot block of `send_message` (socket_manager.py lines 199-251): mark
the inbound message Read and notify the sender, persist the bot reply with
status Sent, and if the sender has a presence entry fan the reply (payload
status Delivered) to all of the sender's handles and set the stored reply
status directly to Read. -/
def botBranch (reply : String → String → String) (st : ServerState) (sid mid : Nat)
    (sender c : String) (msgs1 : List Msg) : List Msg × Nat × List Action :=
  let botResponse := reply sender c
  let msgsA := (dbUpdateOne msgs1 (byId mid) .read).1
  let rid := mid + 1
  let m2 : Msg := ⟨rid, BOT_EMAIL, sender, botResponse, true, .sent⟩
  let msgsB := msgsA ++ [m2]
  let pB : Msg := ⟨rid, BOT_EMAIL, sender, botResponse, true, .delivered⟩
  let fb :=
    if (alookup st.connected_users sender).isSome then
      ((dbUpdateOne msgsB (byId rid) .read).1,
       fanout (handlesFor st sender) pB ++ [Action.updateStatus rid Status.read])
    else (msgsB, ([] : List Action))
  (fb.1, rid + 1,
   [Action.updateStatus mid Status.read, Action.emit (.message_read sid mid none),
    Action.insert m2] ++ fb.2)

/-- The body of `send_message` after authentication and payload validation
(socket_manager.py lines 127-251): persist the message with status Sent,
confirm to the sending session, run the delivery step, and, when the
recipient is the bot identity, run the bot block. -/
def sendCore (reply : String → String → String) (st : ServerState) (sid : Nat)
    (sender r c : String) : ServerState × List Action :=
  let mid := st.nextId
  let m1 : Msg := ⟨mid, sender, r, c, false, .sent⟩
  let msgs0 := st.messages ++ [m1]
  let d := deliverBranch st sid mid sender r c msgs0
  let b :=
    if r = BOT_EMAIL then botBranch reply st sid mid sender c d.1
    else (d.1, mid + 1, ([] : List Action))
  ({ st with messages := b.1, nextId := b.2.1 },
   [Action.insert m1, Action.emit (.message_sent sid m1)] ++ d.2 ++ b.2.2)

/-- The `send_message` handler (socket_manager.py lines 104-255): reject an
unknown session with an `error` event; reject a payload that is missing or
lacks the `recipient` or `content` key with an `error` event; otherwise run
the core send path. -/
def send_message (reply : String → String → String) (st : ServerState) (sid : Nat)
    (data : Option MsgData) : ServerState × List Action :=
  match alookup st.session_users sid with
  | none => (st, [.emit (.error sid "Unauthorized")])
  | some sender =>
    match data with
    | none => (st, [.emit (.error sid "Invalid message data")])
    | some d =>
      match d.recipient, d.content with
      | some r, some c => sendCore reply st sid sender r c
      | some _, none => (st, [.emit (.error sid "Invalid message data")])
      | none, _ => (st, [.emit (.error sid "Invalid message data")])

/-- The `mark_as_read` handler (socket_manager.py lines 258-307): silently
return on an unknown session, a missing `message_id` key, or a syntactically
invalid id; otherwise conditionally update the message whose id and recipient
match to Read, and only when a document was actually modified look the
message up and, if its sender has a presence entry, emit a `message_read`
notification to every one of the sender's handles. -/
def mark_as_read (st : ServerState) (sid : Nat) (data : Option (Option Nat)) :
    ServerState × List Action :=
  match alookup st.session_users sid with
  | none => (st, [])
  | some user =>
    match data with
    | none => (st, [])
    | some none => (st, [])
    | some (some mid) =>
      let r := dbUpdateOne st.messages (byIdRecip mid user) .read
      let st' := { st with messages := r.1 }
      if r.2 then
        match r.1.find? (byId mid) with
        | none => (st', [])
        | some m =>
          if (alookup st.connected_users m.sender).isSome then
            (st', (handlesFor st m.sender).map fun h =>
              Action.emit (.message_read h mid (some user)))
          else (st', [])
      else (st', [])

/-- The `typing` handler (socket_manager.py lines 310-335): fire-and-forget
fan-out of the typing flag to the recipient's handles when online. -/
def typing (st : ServerState) (sid : Nat) (data : Option (Option String × Bool)) :
    ServerState × List Action :=
  match alookup st.session_users sid with
  | none => (st, [])
  | some sender =>
    match data with
    | none => (st, [])
    | some (none, _) => (st, [])
    | some (some r, t) =>
      if (alookup st.connected_users r).isSome then
        (st, (handlesFor st r).map fun h => Action.emit (.user_typing h sender t))
      else (st, [])

/-- The `get_online_status` handler (socket_manager.py lines 338-354): answer
the requester with key-presence in the registry; no state change. -/
def get_online_status (st : ServerState) (sid : Nat) (data : Option String) :
    ServerState × List Action :=
  match data with
  | none => (st, [])
  | some email =>
    (st, [.emit (.online_status sid email (alookup st.connected_users email).isSome)])

/-- Result of the REST `PATCH /api/messages/{message_id}` endpoint. -/
inductive UpdateResult where
  | badRequest
  | notFound
  | forbidden
  | ok (m : Msg)
  deriving DecidableEq, Repr

/-- The REST `update_message` endpoint (routes/messages.py lines 130-181):
400 on an invalid id, 404 when the message does not exist, 403 when the
caller is not the recipient; otherwise `$set` whatever status the
`MessageUpdate` body carries (any of Sent/Delivered/Read, unvalidated
against the current status) and return the updated message. -/
def update_message (st : ServerState) (currentUser : String) (messageId : Option Nat)
    (newStatus : Option Status) : ServerState × UpdateResult :=
  match messageId with
  | none => (st, .badRequest)
  | some mid =>
    match st.messages.find? (byId mid) with
    | none => (st, .notFound)
    | some m =>
      if m.recipient = currentUser then
        match newStatus with
        | none => (st, .ok m)
        | some s =>
          let msgs := (dbUpdateOne st.messages (byId mid) s).1
          match msgs.find? (byId mid) with
          | none => ({ st with messages := msgs }, .notFound)
          | some m2 => ({ st with messages := msgs }, .ok m2)
      else (st, .forbidden)

/-- Status of the message with a given id, as stored (`find_one({"_id": mid})`). -/
def statusOf (st : ServerState) (mid : Nat) : Option Status :=
  (st.messages.find? (byId mid)).map Msg.status

/-- Target session id of an outbound event (its `room=` argument). -/
def eventTarget : Event → Nat
  | .connected t _ => t
  | .message_sent t _ => t
  | .new_message t _ => t
  | .message_delivered t _ => t
  | .message_read t _ _ => t
  | .user_typing t _ _ => t
  | .online_status t _ _ => t
  | .error t _ => t

/-- The events of a trace delivered to one session, in emission order. -/
def eventsTo (tr : List Action) (s : Nat) : List Event :=
  tr.filterMap fun a =>
    match a with
    | .emit e => if eventTarget e = s then some e else none
    | _ => none

/-- Number of `new_message` emissions in a trace that carry message id `mid`
with payload status Delivered and are addressed to session `h`. -/
def countNewMsg (tr : List Action) (mid h : Nat) : Nat :=
  tr.countP fun a =>
    match a with
    | .emit (.new_message t p) => decide (t = h ∧ p.id = mid ∧ p.status = .delivered)
    | _ => false

/-- The store's id counter is ahead of every persisted id (true in every
state the program can reach: the store assigns fresh ids). -/
def IdsFresh (st : ServerState) : Prop := ∀ m ∈ st.messages, m.id < st.nextId

instance (st : ServerState) : Decidable (IdsFresh st) := by
  unfold IdsFresh
  infer_instance

/-- Every presence entry holds a non-empty handle set (the registry
invariant; true in every reachable state). -/
def EntriesNonempty (st : ServerState) : Prop :=
  ∀ p ∈ st.connected_users, p.2 ≠ []

instance (st : ServerState) : Decidable (EntriesNonempty st) := by
  unfold EntriesNonempty
  infer_instance

instance (a b : Status) : Decidable (Status.le a b) :=
  inferInstanceAs (Decidable (a.toNat ≤ b.toNat))

theorem Status.le_refl (a : Status) : Status.le a a := Nat.le_refl _

theorem Status.le_trans {a b c : Status} (h1 : Status.le a b) (h2 : Status.le b c) :
    Status.le a c := Nat.le_trans h1 h2

theorem Status.le_read (a : Status) : Status.le a Status.read := by
  cases a <;> decide

/-- Overwriting a message's status with its current value is the identity. -/
theorem Msg.withStatus_self {m : Msg} {s : Status} (h : m.status = s) :
    { m with status := s } = m := by
  cases m
  subst h
  rfl

theorem dbUpdateOne_no_match {p : Msg → Bool} {s : Status} :
    ∀ {msgs : List Msg}, (∀ x ∈ msgs, p x = false) → dbUpdateOne msgs p s = (msgs, false) := by
  intro msgs
  induction msgs with
  | nil => intro _; rfl
  | cons m rest ih =>
    intro h
    have hm : p m = false := h m (by simp)
    have hr := ih fun x hx => h x (by simp [hx])
    simp [dbUpdateOne, hm, hr]

/-- An unmodified `update_one` leaves the collection unchanged. -/
theorem dbUpdateOne_not_modified {p : Msg → Bool} {s : Status} :
    ∀ {msgs : List Msg}, (dbUpdateOne msgs p s).2 = false → (dbUpdateOne msgs p s).1 = msgs := by
  intro msgs
  induction msgs with
  | nil => intro _; rfl
  | cons m rest ih =>
    intro h
    by_cases hm : p m
    · simp only [dbUpdateOne, hm, if_true] at h ⊢
      simp only [decide_eq_false_iff_not, not_not] at h
      rw [Msg.withStatus_self h]
    · have hm' : p m = false := by simpa using hm
      simp only [dbUpdateOne, hm', Bool.false_eq_true, if_false] at h ⊢
      rw [ih h]

/-- `update_one` on a collection whose existing documents all fail the filter,
followed by one appended document: only the appended document can change. -/
theorem dbUpdateOne_append_no_match {p : Msg → Bool} {s : Status} {m : Msg} :
    ∀ {msgs : List Msg}, (∀ x ∈ msgs, p x = false) →
      dbUpdateOne (msgs ++ [m]) p s =
        (msgs ++ [if p m then { m with status := s } else m], p m && decide (m.status ≠ s)) := by
  intro msgs
  induction msgs with
  | nil =>
    intro _
    by_cases hm : p m <;> simp [dbUpdateOne, hm]
  | cons x rest ih =>
    intro h
    have hx : p x = false := h x (by simp)
    have hr := ih fun y hy => h y (by simp [hy])
    simp [dbUpdateOne, hx, hr]

/-- A document failing the filter survives `update_one` unchanged. -/
theorem dbUpdateOne_mem_of_neg {p : Msg → Bool} {s : Status} {x : Msg} (hx : p x = false) :
    ∀ {msgs : List Msg}, x ∈ msgs → x ∈ (dbUpdateOne msgs p s).1 := by
  intro msgs
  induction msgs with
  | nil => intro h; cases h
  | cons m rest ih =>
    intro hm
    by_cases hpm : p m
    · rcases List.mem_cons.mp hm with rfl | hm'
      · rw [hpm] at hx; cases hx
      · simp [dbUpdateOne, hpm, hm']
    · rcases List.mem_cons.mp hm with rfl | hm'
      · simp [dbUpdateOne, hpm]
      · simp [dbUpdateOne, hpm, ih hm']

/-- Every document survives `update_one` either untouched or with its status
overwritten by the update's target status; the id is never changed. -/
theorem dbUpdateOne_mem_shape {p : Msg → Bool} {s : Status} :
    ∀ {msgs : List Msg}, ∀ x ∈ msgs, ∃ y ∈ (dbUpdateOne msgs p s).1,
      y.id = x.id ∧ (y = x ∨ y = { x with status := s }) := by
  intro msgs
  induction msgs with
  | nil => intro x h; cases h
  | cons m rest ih =>
    intro x hx
    by_cases hpm : p m
    · rcases List.mem_cons.mp hx with rfl | hx'
      · exact ⟨{ x with status := s }, by simp [dbUpdateOne, hpm], rfl, Or.inr rfl⟩
      · exact ⟨x, by simp [dbUpdateOne, hpm, hx'], rfl, Or.inl rfl⟩
    · rcases List.mem_cons.mp hx with rfl | hx'
      · exact ⟨x, by simp [dbUpdateOne, hpm], rfl, Or.inl rfl⟩
      · obtain ⟨y, hy, hid, hor⟩ := ih x hx'
        exact ⟨y, by simp [dbUpdateOne, hpm, hy], hid, hor⟩

/-- Every document after `update_one` has the id of some original document. -/
theorem dbUpdateOne_ids {p : Msg → Bool} {s : Status} :
    ∀ {msgs : List Msg}, ∀ y ∈ (dbUpdateOne msgs p s).1, ∃ x ∈ msgs, y.id = x.id := by
  intro msgs
  induction msgs with
  | nil => intro y h; cases h
  | cons m rest ih =>
    intro y hy
    by_cases hpm : p m
    · simp only [dbUpdateOne, hpm, if_true] at hy
      rcases List.mem_cons.mp hy with rfl | hy'
      · exact ⟨m, by simp, rfl⟩
      · exact ⟨y, by simp [hy'], rfl⟩
    · simp only [dbUpdateOne, hpm, if_false] at hy
      rcases List.mem_cons.mp hy with rfl | hy'
      · exact ⟨y, by simp, rfl⟩
      · obtain ⟨x, hx, hid⟩ := ih y hy'
        exact ⟨x, by simp [hx], hid⟩

/-- Running the same status-blind-filtered `update_one` twice: the second run
modifies nothing. -/
theorem dbUpdateOne_idem {p : Msg → Bool} {s : Status}
    (hp : ∀ (m : Msg) (s' : Status), p { m with status := s' } = p m) :
    ∀ msgs : List Msg,
      dbUpdateOne (dbUpdateOne msgs p s).1 p s = ((dbUpdateOne msgs p s).1, false) := by
  intro msgs
  induction msgs with
  | nil => rfl
  | cons m rest ih =>
    by_cases hpm : p m
    · have hps : p { m with status := s } = true := by rw [hp]; exact hpm
      simp [dbUpdateOne, hpm, hps]
    · simp [dbUpdateOne, hpm, ih]

/-- `find?` skips a prefix on which the predicate fails. -/
theorem find?_append_no_match {q : Msg → Bool} :
    ∀ {l1 l2 : List Msg}, (∀ x ∈ l1, q x = false) →
      List.find? q (l1 ++ l2) = List.find? q l2 := by
  intro l1
  induction l1 with
  | nil => intro l2 _; rfl
  | cons x rest ih =>
    intro l2 h
    have hx : q x = false := h x (by simp)
    simp only [List.cons_append, List.find?_cons, hx]
    exact ih fun y hy => h y (by simp [hy])

theorem countP_decide_eq_one {h : Nat} :
    ∀ {l : List Nat}, l.Nodup → h ∈ l → l.countP (fun x => decide (x = h)) = 1 := by
  intro l
  induction l with
  | nil => intro _ hm; cases hm
  | cons a rest ih =>
    intro hnd hm
    rcases List.mem_cons.mp hm with rfl | hm'
    · have hz : rest.countP (fun x => decide (x = h)) = 0 := by
        rw [List.countP_eq_zero]
        intro x hx
        simp only [decide_eq_true_eq]
        intro hxh
        exact (List.nodup_cons.mp hnd).1 (hxh ▸ hx)
      simp [List.countP_cons, hz]
    · have ha : a ≠ h := by
        intro hah
        exact (List.nodup_cons.mp hnd).1 (hah ▸ hm')
      have := ih (List.nodup_cons.mp hnd).2 hm'
      simp [List.countP_cons, ha, this]

/-- Key-membership extraction from an association-list lookup. -/
theorem alookup_mem {α β : Type} [DecidableEq α] :
    ∀ {l : List (α × β)} {k : α} {b : β}, alookup l k = some b → (k, b) ∈ l := by
  intro l
  induction l with
  | nil => intro k b h; cases h
  | cons p rest ih =>
    intro k b h
    by_cases hk : p.1 = k
    · rw [show p = (p.1, p.2) from rfl, alookup] at h
      simp only [hk, if_true, Option.some.injEq] at h
      subst hk
      subst h
      simp
    · rw [show p = (p.1, p.2) from rfl, alookup] at h
      simp only [hk, if_false] at h
      exact List.mem_cons.mpr (Or.inr (ih h))

def isEmit : Action → Bool
  | .emit _ => true
  | _ => false

def isInsert : Action → Bool
  | .insert _ => true
  | _ => false

/-- The message id an outbound event refers to, if any. -/
def eventIdRef : Event → Option Nat
  | .message_sent _ p => some p.id
  | .new_message _ p => some p.id
  | .message_delivered _ mid => some mid
  | .message_read _ mid _ => some mid
  | .connected _ _ => none
  | .user_typing _ _ _ => none
  | .online_status _ _ _ => none
  | .error _ _ => none

/-- Checks that, scanning a trace left to right starting from the set `ids`
of already-assigned message ids, every emitted event and every status update
refers only to an id already assigned by a preceding insert. -/
def refsOk (ids : List Nat) : List Action → Bool
  | [] => true
  | .insert m :: rest => refsOk (m.id :: ids) rest
  | .updateStatus i _ :: rest => decide (i ∈ ids) && refsOk ids rest
  | .emit e :: rest =>
    (match eventIdRef e with
     | some i => decide (i ∈ ids)
     | none => true) && refsOk ids rest

/-- The id environment after scanning a trace. -/
def idsAfter : List Action → List Nat → List Nat
  | [], ids => ids
  | .insert m :: rest, ids => idsAfter rest (m.id :: ids)
  | .updateStatus _ _ :: rest, ids => idsAfter rest ids
  | .emit _ :: rest, ids => idsAfter rest ids

theorem refsOk_append : ∀ (xs ys : List Action) (ids : List Nat),
    refsOk ids (xs ++ ys) = (refsOk ids xs && refsOk (idsAfter xs ids) ys) := by
  intro xs
  induction xs with
  | nil => intro ys ids; simp [refsOk, idsAfter]
  | cons a rest ih =>
    intro ys ids
    cases a with
    | insert m => simp [refsOk, idsAfter, ih]
    | updateStatus i s => simp [refsOk, idsAfter, ih, Bool.and_assoc]
    | emit e => simp [refsOk, idsAfter, ih, Bool.and_assoc]

theorem refsOk_fanout {p : Msg} {ids : List Nat} (hp : p.id ∈ ids) :
    ∀ {hs : List Nat}, refsOk ids (fanout hs p) = true := by
  intro hs
  induction hs with
  | nil => rfl
  | cons h rest ih =>
    simpa [fanout, refsOk, eventIdRef, hp] using ih

theorem idsAfter_fanout : ∀ {hs : List Nat} {p : Msg} {ids : List Nat},
    idsAfter (fanout hs p) ids = ids := by
  intro hs
  induction hs with
  | nil => intro p ids; rfl
  | cons h rest ih => intro p ids; simpa [fanout, idsAfter] using ih

/-- On an authenticated session with a payload carrying both keys,
`send_message` runs the core send path. -/
theorem send_message_valid (reply : String → String → String) (st : ServerState)
    (sid : Nat) (sender r c : String)
    (hsu : alookup st.session_users sid = some sender) :
    send_message reply st sid (some ⟨some r, some c⟩) = sendCore reply st sid sender r c := by
  simp [send_message, hsu]

/-- C3 counterexample: starting from the empty state, user `a` connects on
session 0 and sends "hi" to the bot identity; the bot's reply (message id 1,
recipient `a`) ends with stored status Read.  The REST status update then
lets the recipient set the status of message 1 back to Sent, so the stored
status moves backward from Read to Sent. -/
theorem rest_update_moves_status_backward :
    statusOf ((send_message (fun _ _ => "r") (connect initState 0 "a").1 0
      (some ⟨some BOT_EMAIL, some "hi"⟩)).1) 1 = some Status.read
    ∧ statusOf (update_message ((send_message (fun _ _ => "r") (connect initState 0 "a").1 0
        (some ⟨some BOT_EMAIL, some "hi"⟩)).1) "a" (some 1) (some Status.sent)).1 1
      = some Status.sent := by
  exact ⟨rfl, rfl⟩

/-- C6 counterexample: user `a` is connected on session 0 and sends a message
whose `content` field is the empty string to offline user `b`.  The message
IS persisted (with empty content, status Sent) and the emitted trace is a
normal insert followed by a `message_sent` confirmation — no `error` event
and no rejection. -/
theorem empty_content_is_persisted :
    (send_message (fun _ _ => "r") ⟨[("a", [0])], [(0, "a")], [], 0⟩ 0
      (some ⟨some "b", some ""⟩)).1.messages
      = [⟨0, "a", "b", "", false, Status.sent⟩]
    ∧ (send_message (fun _ _ => "r") ⟨[("a", [0])], [(0, "a")], [], 0⟩ 0
        (some ⟨some "b", some ""⟩)).2
      = [Action.insert ⟨0, "a", "b", "", false, Status.sent⟩,
         Action.emit (.message_sent 0 ⟨0, "a", "b", "", false, Status.sent⟩)] := by
  exact ⟨rfl, rfl⟩

/-- C7 counterexample: user `a`, connected on session 0, sends "hi" to the
bot.  The bot reply (message id 1) is fanned out with payload status
Delivered, but its persisted status is set directly from Sent to Read: the
final stored status is Read and no store update to Delivered is ever issued
for the reply. -/
theorem bot_reply_not_marked_delivered :
    statusOf ((send_message (fun _ _ => "r") ⟨[("a", [0])], [(0, "a")], [], 0⟩ 0
      (some ⟨some BOT_EMAIL, some "hi"⟩)).1) 1 = some Status.read
    ∧ Action.updateStatus 1 Status.delivered ∉
        (send_message (fun _ _ => "r") ⟨[("a", [0])], [(0, "a")], [], 0⟩ 0
          (some ⟨some BOT_EMAIL, some "hi"⟩)).2 := by
  exact ⟨rfl, by decide⟩

/-- C9 counterexample: user `a` has two live connections (sessions 0 and 1)
and sends "hi" from session 0 to offline user `b`.  Session 1 — the sender's
other connection — receives no event at all, contradicting the claim that
both of the sender's connections each receive one `message_sent`
(`message_sent` goes only to the originating session, `room=sid`). -/
theorem second_connection_gets_no_message_sent :
    eventsTo (send_message (fun _ _ => "r") ⟨[("a", [0, 1])], [(0, "a"), (1, "a")], [], 0⟩ 0
      (some ⟨some "b", some "hi"⟩)).2 1 = []
    ∧ eventsTo (send_message (fun _ _ => "r") ⟨[("a", [0, 1])], [(0, "a"), (1, "a")], [], 0⟩ 0
        (some ⟨some "b", some "hi"⟩)).2 0
      = [.message_sent 0 ⟨0, "a", "b", "hi", false, Status.sent⟩] := by
  exact ⟨rfl, rfl⟩

/-- C2: for every valid `send_message` invocation (authenticated session,
payload carrying both `recipient` and `content`), the very first action of
the handler is the persist of exactly one new message with status Sent; no
other insert happens before the first outbound emission; and every outbound
event and status update in the whole trace references an id assigned by a
preceding insert of this trace (the store-assigned identifier). -/
theorem send_message_persists_before_emit (reply : String → String → String)
    (st : ServerState) (sid : Nat) (sender r c : String)
    (hsu : alookup st.session_users sid = some sender) :
    (send_message reply st sid (some ⟨some r, some c⟩)).2.head?
      = some (.insert ⟨st.nextId, sender, r, c, false, Status.sent⟩)
    ∧ (((send_message reply st sid (some ⟨some r, some c⟩)).2.takeWhile
          fun a => !(isEmit a)).countP isInsert) = 1
    ∧ refsOk [] (send_message reply st sid (some ⟨some r, some c⟩)).2 = true := by
  rw [send_message_valid reply st sid sender r c hsu]
  refine ⟨?_, ?_, ?_⟩
  · simp [sendCore]
  · simp [sendCore, List.takeWhile, isEmit, isInsert, List.countP_cons]
  · by_cases hbot : r = BOT_EMAIL
    · subst hbot
      by_cases hon : (alookup st.connected_users BOT_EMAIL).isSome
      · by_cases hson : (alookup st.connected_users sender).isSome
        · simp [sendCore, deliverBranch, botBranch, hon, hson, refsOk, eventIdRef,
            refsOk_append, idsAfter, idsAfter_fanout,
            refsOk_fanout (p := ⟨st.nextId, sender, BOT_EMAIL, c, false, .delivered⟩)
              (show st.nextId ∈ [st.nextId] by simp),
            refsOk_fanout
              (p := ⟨st.nextId + 1, BOT_EMAIL, sender, reply sender c, true, .delivered⟩)
              (show st.nextId + 1 ∈ [st.nextId + 1, st.nextId] by simp)]
        · simp [sendCore, deliverBranch, botBranch, hon, hson, refsOk, eventIdRef,
            refsOk_append, idsAfter, idsAfter_fanout,
            refsOk_fanout (p := ⟨st.nextId, sender, BOT_EMAIL, c, false, .delivered⟩)
              (show st.nextId ∈ [st.nextId] by simp)]
      · by_cases hson : (alookup st.connected_users sender).isSome
        · simp [sendCore, deliverBranch, botBranch, hon, hson, refsOk, eventIdRef,
            refsOk_append, idsAfter, idsAfter_fanout,
            refsOk_fanout
              (p := ⟨st.nextId + 1, BOT_EMAIL, sender, reply sender c, true, .delivered⟩)
              (show st.nextId + 1 ∈ [st.nextId + 1, st.nextId] by simp)]
        · simp [sendCore, deliverBranch, botBranch, hon, hson, refsOk, eventIdRef,
            refsOk_append, idsAfter, idsAfter_fanout]
    · by_cases hon : (alookup st.connected_users r).isSome
      · simp [sendCore, deliverBranch, botBranch, hon, hbot, refsOk, eventIdRef,
          refsOk_append, idsAfter, idsAfter_fanout,
          refsOk_fanout (p := ⟨st.nextId, sender, r, c, false, .delivered⟩)
            (show st.nextId ∈ [st.nextId] by simp)]
      · simp [sendCore, deliverBranch, botBranch, hon, hbot, refsOk, eventIdRef,
          refsOk_append, idsAfter, idsAfter_fanout]

/-- Witness for C2 at a concrete input: user `a` on session 0 sends "hi" to
offline user `b`. -/
theorem send_message_persists_before_emit_witness :
    (send_message (fun _ _ => "r") ⟨[("a", [0])], [(0, "a")], [], 0⟩ 0
      (some ⟨some "b", some "hi"⟩)).2.head?
      = some (.insert ⟨0, "a", "b", "hi", false, Status.sent⟩)
    ∧ (((send_message (fun _ _ => "r") ⟨[("a", [0])], [(0, "a")], [], 0⟩ 0
          (some ⟨some "b", some "hi"⟩)).2.takeWhile
          fun a => !(isEmit a)).countP isInsert) = 1
    ∧ refsOk [] (send_message (fun _ _ => "r") ⟨[("a", [0])], [(0, "a")], [], 0⟩ 0
        (some ⟨some "b", some "hi"⟩)).2 = true :=
  send_message_persists_before_emit (fun _ _ => "r") ⟨[("a", [0])], [(0, "a")], [], 0⟩
    0 "a" "b" "hi" (by rfl)

theorem isSome_of_handles_ne_nil {st : ServerState} {r : String}
    (h : handlesFor st r ≠ []) : (alookup st.connected_users r).isSome := by
  unfold handlesFor at h
  cases hcu : alookup st.connected_users r with
  | none => rw [hcu] at h; simp at h
  | some l => simp

theorem alookup_eq_none_of_handles_nil {st : ServerState} {r : String}
    (hreg : EntriesNonempty st) (h : handlesFor st r = []) :
    alookup st.connected_users r = none := by
  cases hcu : alookup st.connected_users r with
  | none => rfl
  | some l =>
    exfalso
    have hl : l ≠ [] := hreg (r, l) (alookup_mem hcu)
    unfold handlesFor at h
    rw [hcu] at h
    exact hl h

/-- In a state with fresh ids, no stored message matches a counter-or-later id. -/
theorem byId_false_of_fresh {st : ServerState} (hIds : IdsFresh st) {k : Nat}
    (hk : st.nextId ≤ k) : ∀ x ∈ st.messages, byId k x = false := by
  intro x hx
  have := hIds x hx
  simp only [byId, decide_eq_false_iff_not]
  omega

theorem countNewMsg_append (a b : List Action) (mid h : Nat) :
    countNewMsg (a ++ b) mid h = countNewMsg a mid h + countNewMsg b mid h := by
  unfold countNewMsg
  exact List.countP_append _ _ _

theorem countNewMsg_nil (mid h : Nat) : countNewMsg [] mid h = 0 := rfl

theorem countNewMsg_cons_insert (m : Msg) (tr : List Action) (mid h : Nat) :
    countNewMsg (.insert m :: tr) mid h = countNewMsg tr mid h := by
  unfold countNewMsg
  rw [List.countP_cons]
  rfl

theorem countNewMsg_cons_update (i : Nat) (s : Status) (tr : List Action) (mid h : Nat) :
    countNewMsg (.updateStatus i s :: tr) mid h = countNewMsg tr mid h := by
  unfold countNewMsg
  rw [List.countP_cons]
  rfl

theorem countNewMsg_cons_sent (t : Nat) (p : Msg) (tr : List Action) (mid h : Nat) :
    countNewMsg (.emit (.message_sent t p) :: tr) mid h = countNewMsg tr mid h := by
  unfold countNewMsg
  rw [List.countP_cons]
  rfl

theorem countNewMsg_cons_delivered (t i : Nat) (tr : List Action) (mid h : Nat) :
    countNewMsg (.emit (.message_delivered t i) :: tr) mid h = countNewMsg tr mid h := by
  unfold countNewMsg
  rw [List.countP_cons]
  rfl

theorem countNewMsg_cons_readEvent (t i : Nat) (rb : Option String) (tr : List Action)
    (mid h : Nat) :
    countNewMsg (.emit (.message_read t i rb) :: tr) mid h = countNewMsg tr mid h := by
  unfold countNewMsg
  rw [List.countP_cons]
  rfl

theorem countNewMsg_cons_errorEvent (t : Nat) (s : String) (tr : List Action) (mid h : Nat) :
    countNewMsg (.emit (.error t s) :: tr) mid h = countNewMsg tr mid h := by
  unfold countNewMsg
  rw [List.countP_cons]
  rfl

theorem countNewMsg_fanout_eq (hs : List Nat) (p : Msg) (mid h : Nat) :
    countNewMsg (fanout hs p) mid h
      = hs.countP fun x => decide (x = h ∧ p.id = mid ∧ p.status = .delivered) := by
  unfold countNewMsg fanout
  rw [List.countP_map]
  rfl

theorem countNewMsg_fanout_match {hs : List Nat} {mid h : Nat} {p : Msg}
    (hid : p.id = mid) (hst : p.status = Status.delivered)
    (hnd : hs.Nodup) (hm : h ∈ hs) :
    countNewMsg (fanout hs p) mid h = 1 := by
  rw [countNewMsg_fanout_eq]
  have hcong : hs.countP (fun x => decide (x = h ∧ p.id = mid ∧ p.status = .delivered))
      = hs.countP (fun x => decide (x = h)) := by
    apply List.countP_congr
    intro x _
    simp [hid, hst]
  rw [hcong]
  exact countP_decide_eq_one hnd hm

theorem countNewMsg_fanout_mismatch {hs : List Nat} {mid h : Nat} {p : Msg}
    (hid : p.id ≠ mid) : countNewMsg (fanout hs p) mid h = 0 := by
  rw [countNewMsg_fanout_eq, List.countP_eq_zero]
  intro x _
  simp [hid]

/-- C1: on an authenticated session with a well-formed payload, if the
recipient has N ≥ 1 live handles in the presence registry then a
`new_message` event whose payload status is Delivered is emitted exactly
once to each of the N handles, the store receives an update of the message's
status to Delivered, and the sender's session receives a
`message_delivered` event; if the recipient has no handles and is not the
bot identity, no `new_message` fan-out occurs at all and the persisted
status remains Sent. -/
theorem send_message_fanout_delivery (reply : String → String → String)
    (st : ServerState) (sid : Nat) (sender r c : String)
    (hsu : alookup st.session_users sid = some sender)
    (hnd : (handlesFor st r).Nodup)
    (hreg : EntriesNonempty st)
    (hIds : IdsFresh st) :
    (handlesFor st r ≠ [] →
      (∀ h ∈ handlesFor st r,
        countNewMsg (send_message reply st sid (some ⟨some r, some c⟩)).2 st.nextId h = 1)
      ∧ Action.updateStatus st.nextId Status.delivered
          ∈ (send_message reply st sid (some ⟨some r, some c⟩)).2
      ∧ Action.emit (.message_delivered sid st.nextId)
          ∈ (send_message reply st sid (some ⟨some r, some c⟩)).2
      ∧ (r ≠ BOT_EMAIL →
          statusOf (send_message reply st sid (some ⟨some r, some c⟩)).1 st.nextId
            = some Status.delivered))
    ∧ (handlesFor st r = [] → r ≠ BOT_EMAIL →
      (∀ h, countNewMsg (send_message reply st sid (some ⟨some r, some c⟩)).2 st.nextId h = 0)
      ∧ statusOf (send_message reply st sid (some ⟨some r, some c⟩)).1 st.nextId
        = some Status.sent) := by
  rw [send_message_valid reply st sid sender r c hsu]
  have holdf : ∀ x ∈ st.messages, byId st.nextId x = false :=
    byId_false_of_fresh hIds (Nat.le_refl _)
  constructor
  · intro hne
    have hon : (alookup st.connected_users r).isSome := isSome_of_handles_ne_nil hne
    by_cases hbot : r = BOT_EMAIL
    · subst hbot
      by_cases hson : (alookup st.connected_users sender).isSome
      · refine ⟨?_, ?_, ?_, fun hb => absurd rfl hb⟩
        · intro h hm
          simp [sendCore, deliverBranch, botBranch, hon, hson, countNewMsg_append,
            countNewMsg_nil, countNewMsg_cons_insert, countNewMsg_cons_update,
            countNewMsg_cons_sent, countNewMsg_cons_delivered, countNewMsg_cons_readEvent,
            countNewMsg_fanout_match (p := ⟨st.nextId, sender, BOT_EMAIL, c, false, .delivered⟩)
              rfl rfl hnd hm,
            countNewMsg_fanout_mismatch (h := h)
              (p := ⟨st.nextId + 1, BOT_EMAIL, sender, reply sender c, true, .delivered⟩)
              (show st.nextId + 1 ≠ st.nextId by simp)]
        · simp [sendCore, deliverBranch, botBranch, hon, hson]
        · simp [sendCore, deliverBranch, botBranch, hon, hson]
      · refine ⟨?_, ?_, ?_, fun hb => absurd rfl hb⟩
        · intro h hm
          simp [sendCore, deliverBranch, botBranch, hon, hson, countNewMsg_append,
            countNewMsg_nil, countNewMsg_cons_insert, countNewMsg_cons_update,
            countNewMsg_cons_sent, countNewMsg_cons_delivered, countNewMsg_cons_readEvent,
            countNewMsg_fanout_match (p := ⟨st.nextId, sender, BOT_EMAIL, c, false, .delivered⟩)
              rfl rfl hnd hm]
        · simp [sendCore, deliverBranch, botBranch, hon, hson]
        · simp [sendCore, deliverBranch, botBranch, hon, hson]
    · refine ⟨?_, ?_, ?_, fun _ => ?_⟩
      · intro h hm
        simp [sendCore, deliverBranch, botBranch, hon, hbot, countNewMsg_append,
          countNewMsg_nil, countNewMsg_cons_insert, countNewMsg_cons_update,
          countNewMsg_cons_sent, countNewMsg_cons_delivered, countNewMsg_cons_readEvent,
          countNewMsg_fanout_match (p := ⟨st.nextId, sender, r, c, false, .delivered⟩)
            rfl rfl hnd hm]
      · simp [sendCore, deliverBranch, botBranch, hon, hbot]
      · simp [sendCore, deliverBranch, botBranch, hon, hbot]
      · simp only [sendCore, deliverBranch, botBranch, hon, hbot, if_true, if_false]
        rw [dbUpdateOne_append_no_match holdf]
        simp [statusOf, find?_append_no_match holdf, List.find?, byId]
  · intro hnil hbot
    have hoff : alookup st.connected_users r = none :=
      alookup_eq_none_of_handles_nil hreg hnil
    constructor
    · intro h
      simp [sendCore, deliverBranch, botBranch, hoff, hbot, countNewMsg_nil,
        countNewMsg_cons_insert, countNewMsg_cons_sent]
    · simp [sendCore, deliverBranch, botBranch, hoff, hbot, statusOf,
        find?_append_no_match holdf, List.find?, byId]

/-- Witness for C1: user `b` online with one handle (session 5); user `a`
sends from session 0; and the offline part at recipient `z`. -/
theorem send_message_fanout_delivery_witness :
    (handlesFor ⟨[("b", [5])], [(0, "a"), (5, "b")], [], 0⟩ "b" ≠ [] →
      (∀ h ∈ handlesFor ⟨[("b", [5])], [(0, "a"), (5, "b")], [], 0⟩ "b",
        countNewMsg (send_message (fun _ _ => "r") ⟨[("b", [5])], [(0, "a"), (5, "b")], [], 0⟩ 0
          (some ⟨some "b", some "hi"⟩)).2 0 h = 1)
      ∧ Action.updateStatus 0 Status.delivered
          ∈ (send_message (fun _ _ => "r") ⟨[("b", [5])], [(0, "a"), (5, "b")], [], 0⟩ 0
              (some ⟨some "b", some "hi"⟩)).2
      ∧ Action.emit (.message_delivered 0 0)
          ∈ (send_message (fun _ _ => "r") ⟨[("b", [5])], [(0, "a"), (5, "b")], [], 0⟩ 0
              (some ⟨some "b", some "hi"⟩)).2
      ∧ ("b" ≠ BOT_EMAIL →
          statusOf (send_message (fun _ _ => "r") ⟨[("b", [5])], [(0, "a"), (5, "b")], [], 0⟩ 0
            (some ⟨some "b", some "hi"⟩)).1 0 = some Status.delivered))
    ∧ (handlesFor ⟨[("b", [5])], [(0, "a"), (5, "b")], [], 0⟩ "b" = [] → "b" ≠ BOT_EMAIL →
      (∀ h, countNewMsg (send_message (fun _ _ => "r") ⟨[("b", [5])], [(0, "a"), (5, "b")], [], 0⟩ 0
          (some ⟨some "b", some "hi"⟩)).2 0 h = 0)
      ∧ statusOf (send_message (fun _ _ => "r") ⟨[("b", [5])], [(0, "a"), (5, "b")], [], 0⟩ 0
          (some ⟨some "b", some "hi"⟩)).1 0 = some Status.sent) :=
  send_message_fanout_delivery (fun _ _ => "r") ⟨[("b", [5])], [(0, "a"), (5, "b")], [], 0⟩
    0 "a" "b" "hi" (by rfl) (by decide) (by decide) (by decide)

theorem eventsTo_nil (s : Nat) : eventsTo [] s = [] := rfl

theorem eventsTo_append (a b : List Action) (s : Nat) :
    eventsTo (a ++ b) s = eventsTo a s ++ eventsTo b s := by
  simp [eventsTo, List.filterMap_append]

theorem eventsTo_cons_insert (m : Msg) (tr : List Action) (s : Nat) :
    eventsTo (.insert m :: tr) s = eventsTo tr s := by
  simp [eventsTo, List.filterMap_cons]

theorem eventsTo_cons_update (i : Nat) (st' : Status) (tr : List Action) (s : Nat) :
    eventsTo (.updateStatus i st' :: tr) s = eventsTo tr s := by
  simp [eventsTo, List.filterMap_cons]

theorem eventsTo_cons_emit (e : Event) (tr : List Action) (s : Nat) :
    eventsTo (.emit e :: tr) s
      = if eventTarget e = s then e :: eventsTo tr s else eventsTo tr s := by
  by_cases h : eventTarget e = s <;> simp [eventsTo, List.filterMap_cons, h]

theorem eventsTo_fanout_not_mem {s : Nat} {p : Msg} :
    ∀ {hs : List Nat}, s ∉ hs → eventsTo (fanout hs p) s = [] := by
  intro hs
  induction hs with
  | nil => intro _; rfl
  | cons a rest ih =>
    intro h
    have ha : eventTarget (.new_message a p) ≠ s := by
      simp only [eventTarget]
      exact fun hh => h (by simp [hh])
    have hr : s ∉ rest := fun hh => h (by simp [hh])
    show eventsTo (.emit (.new_message a p) :: fanout rest p) s = []
    rw [eventsTo_cons_emit, if_neg ha]
    exact ih hr

theorem eventsTo_fanout_mem {s : Nat} {p : Msg} :
    ∀ {hs : List Nat}, hs.Nodup → s ∈ hs →
      eventsTo (fanout hs p) s = [.new_message s p] := by
  intro hs
  induction hs with
  | nil => intro _ hm; cases hm
  | cons a rest ih =>
    intro hnd hm
    rcases List.mem_cons.mp hm with rfl | hm'
    · show eventsTo (.emit (.new_message s p) :: fanout rest p) s = _
      rw [eventsTo_cons_emit, if_pos (by rfl),
        eventsTo_fanout_not_mem (List.nodup_cons.mp hnd).1]
    · have ha : eventTarget (.new_message a p) ≠ s := by
        simp only [eventTarget]
        exact fun hh => (List.nodup_cons.mp hnd).1 (hh ▸ hm')
      show eventsTo (.emit (.new_message a p) :: fanout rest p) s = _
      rw [eventsTo_cons_emit, if_neg ha]
      exact ih (List.nodup_cons.mp hnd).2 hm'

/-- `update_one` never creates a match for an id filter that had none. -/
theorem byId_false_dbUpdateOne {msgs : List Msg} {p : Msg → Bool} {s : Status} {k : Nat}
    (h : ∀ x ∈ msgs, byId k x = false) :
    ∀ y ∈ (dbUpdateOne msgs p s).1, byId k y = false := by
  intro y hy
  obtain ⟨x, hx, hid⟩ := dbUpdateOne_ids y hy
  simpa [byId, hid] using h x hx

/-- `find?` through an id-filtered `update_one` with the same id filter:
the located document is the old one with the status overwritten. -/
theorem find?_byId_dbUpdateOne_self {k : Nat} {s : Status} :
    ∀ {msgs : List Msg} {m : Msg}, List.find? (byId k) msgs = some m →
      List.find? (byId k) (dbUpdateOne msgs (byId k) s).1 = some { m with status := s } := by
  intro msgs
  induction msgs with
  | nil => intro m h; cases h
  | cons x rest ih =>
    intro m h
    by_cases hx : byId k x
    · rw [List.find?_cons_of_pos _ hx] at h
      injection h with h'
      subst h'
      have hx' : byId k { x with status := s } = true := by
        simpa [byId] using hx
      simp only [dbUpdateOne, hx, if_true]
      rw [List.find?_cons_of_pos _ hx']
    · rw [List.find?_cons_of_neg _ (by simp [hx])] at h
      have hfx : byId k x = false := by simpa using hx
      simp only [dbUpdateOne, hfx, Bool.false_eq_true, if_false]
      rw [List.find?_cons_of_neg _ (by simp [hfx])]
      exact ih h

/-- C8: when an authenticated user, connected with `sid` among their own live
handles, sends to the bot identity (which has no presence entry), the event
sequence delivered to the sending session is exactly `message_sent`, then
`message_delivered`, then `message_read` for the persisted message id, then
one `new_message` carrying the bot's reply — in particular the sender never
observes Read before Delivered for that message id. -/
theorem bot_send_sender_event_order (reply : String → String → String)
    (st : ServerState) (sid : Nat) (sender c : String)
    (hsu : alookup st.session_users sid = some sender)
    (hbot_off : alookup st.connected_users BOT_EMAIL = none)
    (hnd : (handlesFor st sender).Nodup)
    (hmem : sid ∈ handlesFor st sender) :
    eventsTo (send_message reply st sid (some ⟨some BOT_EMAIL, some c⟩)).2 sid
      = [.message_sent sid ⟨st.nextId, sender, BOT_EMAIL, c, false, .sent⟩,
         .message_delivered sid st.nextId,
         .message_read sid st.nextId none,
         .new_message sid ⟨st.nextId + 1, BOT_EMAIL, sender, reply sender c, true,
           .delivered⟩] := by
  rw [send_message_valid reply st sid sender BOT_EMAIL c hsu]
  have hson : (alookup st.connected_users sender).isSome :=
    isSome_of_handles_ne_nil fun hh => by rw [hh] at hmem; cases hmem
  simp [sendCore, deliverBranch, botBranch, hbot_off, hson, eventsTo_append,
    eventsTo_cons_insert, eventsTo_cons_update, eventsTo_cons_emit, eventTarget,
    eventsTo_fanout_mem hnd hmem, eventsTo_nil]

/-- Witness for C8: user `a` on session 0 (their only handle) sends "hi" to
the bot. -/
theorem bot_send_sender_event_order_witness :
    eventsTo (send_message (fun _ _ => "r") ⟨[("a", [0])], [(0, "a")], [], 0⟩ 0
      (some ⟨some BOT_EMAIL, some "hi"⟩)).2 0
      = [.message_sent 0 ⟨0, "a", BOT_EMAIL, "hi", false, .sent⟩,
         .message_delivered 0 0,
         .message_read 0 0 none,
         .new_message 0 ⟨1, BOT_EMAIL, "a", "r", true, .delivered⟩] :=
  bot_send_sender_event_order (fun _ _ => "r") ⟨[("a", [0])], [(0, "a")], [], 0⟩
    0 "a" "hi" (by rfl) (by rfl) (by decide) (by decide)

/-- C7 (amended): when an authenticated user who still has at least one live
handle sends to the bot identity (bot has no presence entry), the synthetic
reply is persisted as a new message from the bot to the original sender with
status Sent; a `new_message` carrying the reply (payload status Delivered)
is emitted exactly once to each of the sender's live handles; the reply's
persisted status is then updated directly to Read (not Delivered — the store
never holds the reply at Delivered); and no read-receipt event is emitted
for the reply. -/
theorem bot_reply_delivery (reply : String → String → String)
    (st : ServerState) (sid : Nat) (sender c : String)
    (hsu : alookup st.session_users sid = some sender)
    (hbot_off : alookup st.connected_users BOT_EMAIL = none)
    (hnd : (handlesFor st sender).Nodup)
    (hne : handlesFor st sender ≠ [])
    (hIds : IdsFresh st) :
    Action.insert ⟨st.nextId + 1, BOT_EMAIL, sender, reply sender c, true, .sent⟩
      ∈ (send_message reply st sid (some ⟨some BOT_EMAIL, some c⟩)).2
    ∧ (∀ h ∈ handlesFor st sender,
        countNewMsg (send_message reply st sid (some ⟨some BOT_EMAIL, some c⟩)).2
          (st.nextId + 1) h = 1)
    ∧ statusOf (send_message reply st sid (some ⟨some BOT_EMAIL, some c⟩)).1 (st.nextId + 1)
        = some Status.read
    ∧ ∀ t rb, Action.emit (.message_read t (st.nextId + 1) rb)
        ∉ (send_message reply st sid (some ⟨some BOT_EMAIL, some c⟩)).2 := by
  rw [send_message_valid reply st sid sender BOT_EMAIL c hsu]
  have hson : (alookup st.connected_users sender).isSome := isSome_of_handles_ne_nil hne
  have holdf2 : ∀ x ∈ st.messages, byId (st.nextId + 1) x = false :=
    byId_false_of_fresh hIds (Nat.le_succ _)
  refine ⟨?_, ?_, ?_, ?_⟩
  · simp [sendCore, deliverBranch, botBranch, hbot_off, hson]
  · intro h hm
    simp [sendCore, deliverBranch, botBranch, hbot_off, hson, countNewMsg_append,
      countNewMsg_nil, countNewMsg_cons_insert, countNewMsg_cons_update,
      countNewMsg_cons_sent, countNewMsg_cons_delivered, countNewMsg_cons_readEvent,
      countNewMsg_fanout_match
        (p := ⟨st.nextId + 1, BOT_EMAIL, sender, reply sender c, true, .delivered⟩)
        rfl rfl hnd hm,
      countNewMsg_fanout_mismatch (h := h)
        (p := ⟨st.nextId, sender, BOT_EMAIL, c, false, .delivered⟩)
        (show st.nextId ≠ st.nextId + 1 by simp)]
  · have h0 : ∀ x ∈ st.messages ++ [(⟨st.nextId, sender, BOT_EMAIL, c, false,
        Status.sent⟩ : Msg)], byId (st.nextId + 1) x = false := by
      intro x hx
      rcases List.mem_append.mp hx with hx' | hx'
      · exact holdf2 x hx'
      · simp only [List.mem_singleton] at hx'
        subst hx'
        simp [byId]
    have h1 := byId_false_dbUpdateOne (p := byId st.nextId) (s := Status.delivered) h0
    have h2 := byId_false_dbUpdateOne (p := byId st.nextId) (s := Status.read) h1
    have hfind : List.find? (byId (st.nextId + 1))
        ((dbUpdateOne (dbUpdateOne (st.messages ++ [⟨st.nextId, sender, BOT_EMAIL, c, false,
            Status.sent⟩]) (byId st.nextId) Status.delivered).1 (byId st.nextId) Status.read).1
          ++ [⟨st.nextId + 1, BOT_EMAIL, sender, reply sender c, true, Status.sent⟩])
        = some ⟨st.nextId + 1, BOT_EMAIL, sender, reply sender c, true, Status.sent⟩ := by
      rw [find?_append_no_match h2]
      exact List.find?_cons_of_pos _ (by simp [byId])
    have hfinal := find?_byId_dbUpdateOne_self (s := Status.read) hfind
    simp [sendCore, deliverBranch, botBranch, hbot_off, hson, statusOf, hfinal]
  · intro t rb
    simp [sendCore, deliverBranch, botBranch, hbot_off, hson, fanout]

/-- Witness for C7: user `a` on session 0 sends "hi" to the bot. -/
theorem bot_reply_delivery_witness :
    Action.insert ⟨1, BOT_EMAIL, "a", "r", true, .sent⟩
      ∈ (send_message (fun _ _ => "r") ⟨[("a", [0])], [(0, "a")], [], 0⟩ 0
          (some ⟨some BOT_EMAIL, some "hi"⟩)).2
    ∧ (∀ h ∈ handlesFor ⟨[("a", [0])], [(0, "a")], [], 0⟩ "a",
        countNewMsg (send_message (fun _ _ => "r") ⟨[("a", [0])], [(0, "a")], [], 0⟩ 0
          (some ⟨some BOT_EMAIL, some "hi"⟩)).2 1 h = 1)
    ∧ statusOf (send_message (fun _ _ => "r") ⟨[("a", [0])], [(0, "a")], [], 0⟩ 0
        (some ⟨some BOT_EMAIL, some "hi"⟩)).1 1 = some Status.read
    ∧ ∀ t rb, Action.emit (.message_read t 1 rb)
        ∉ (send_message (fun _ _ => "r") ⟨[("a", [0])], [(0, "a")], [], 0⟩ 0
            (some ⟨some BOT_EMAIL, some "hi"⟩)).2 :=
  bot_reply_delivery (fun _ _ => "r") ⟨[("a", [0])], [(0, "a")], [], 0⟩ 0 "a" "hi"
    (by rfl) (by rfl) (by decide) (by decide) (by decide)

/-- C9 (amended): when an authenticated user sends to an offline non-bot
recipient, the whole trace is the persist (status Sent) followed by a single
`message_sent` to the originating session only: the originating session
receives exactly one event, every other session — including every other
live connection of the sender — receives nothing, and the persisted status
is and remains Sent. -/
theorem offline_send_only_originating_session (reply : String → String → String)
    (st : ServerState) (sid : Nat) (sender r c : String)
    (hsu : alookup st.session_users sid = some sender)
    (hoff : alookup st.connected_users r = none)
    (hbot : r ≠ BOT_EMAIL)
    (hIds : IdsFresh st) :
    (send_message reply st sid (some ⟨some r, some c⟩)).2
      = [.insert ⟨st.nextId, sender, r, c, false, .sent⟩,
         .emit (.message_sent sid ⟨st.nextId, sender, r, c, false, .sent⟩)]
    ∧ statusOf (send_message reply st sid (some ⟨some r, some c⟩)).1 st.nextId
        = some Status.sent
    ∧ eventsTo (send_message reply st sid (some ⟨some r, some c⟩)).2 sid
        = [.message_sent sid ⟨st.nextId, sender, r, c, false, .sent⟩]
    ∧ ∀ h, h ≠ sid → eventsTo (send_message reply st sid (some ⟨some r, some c⟩)).2 h = [] := by
  rw [send_message_valid reply st sid sender r c hsu]
  have holdf : ∀ x ∈ st.messages, byId st.nextId x = false :=
    byId_false_of_fresh hIds (Nat.le_refl _)
  refine ⟨?_, ?_, ?_, ?_⟩
  · simp [sendCore, deliverBranch, botBranch, hoff, hbot]
  · simp [sendCore, deliverBranch, botBranch, hoff, hbot, statusOf,
      find?_append_no_match holdf, List.find?, byId]
  · simp [sendCore, deliverBranch, botBranch, hoff, hbot, eventsTo_append,
      eventsTo_cons_insert, eventsTo_cons_emit, eventTarget, eventsTo_nil]
  · intro h hh
    simp [sendCore, deliverBranch, botBranch, hoff, hbot, eventsTo_append,
      eventsTo_cons_insert, eventsTo_cons_emit, eventTarget, eventsTo_nil]
    exact fun hc => hh hc.symm

/-- Witness for C9: user `a` with two live connections (sessions 0 and 1)
sends from session 0 to offline user `b`; session 1 receives nothing. -/
theorem offline_send_only_originating_session_witness :
    (send_message (fun _ _ => "r") ⟨[("a", [0, 1])], [(0, "a"), (1, "a")], [], 0⟩ 0
      (some ⟨some "b", some "hi"⟩)).2
      = [.insert ⟨0, "a", "b", "hi", false, .sent⟩,
         .emit (.message_sent 0 ⟨0, "a", "b", "hi", false, .sent⟩)]
    ∧ statusOf (send_message (fun _ _ => "r") ⟨[("a", [0, 1])], [(0, "a"), (1, "a")], [], 0⟩ 0
        (some ⟨some "b", some "hi"⟩)).1 0 = some Status.sent
    ∧ eventsTo (send_message (fun _ _ => "r") ⟨[("a", [0, 1])], [(0, "a"), (1, "a")], [], 0⟩ 0
        (some ⟨some "b", some "hi"⟩)).2 0
        = [.message_sent 0 ⟨0, "a", "b", "hi", false, .sent⟩]
    ∧ ∀ h, h ≠ 0 → eventsTo (send_message (fun _ _ => "r")
        ⟨[("a", [0, 1])], [(0, "a"), (1, "a")], [], 0⟩ 0
        (some ⟨some "b", some "hi"⟩)).2 h = [] :=
  offline_send_only_originating_session (fun _ _ => "r")
    ⟨[("a", [0, 1])], [(0, "a"), (1, "a")], [], 0⟩ 0 "a" "b" "hi"
    (by rfl) (by rfl) (by decide) (by decide)

theorem eta_messages (st : ServerState) :
    ({ st with messages := st.messages } : ServerState) = st := by
  cases st
  rfl

/-- Whatever branch `mark_as_read` takes on a valid id, the resulting state
is the original state with the conditional Read update applied. -/
theorem mark_as_read_state {st : ServerState} {sid : Nat} {reader : String} {mid : Nat}
    (hsu : alookup st.session_users sid = some reader) :
    (mark_as_read st sid (some (some mid))).1
      = { st with messages := (dbUpdateOne st.messages (byIdRecip mid reader) Status.read).1 } := by
  simp only [mark_as_read, hsu]
  by_cases hr : (dbUpdateOne st.messages (byIdRecip mid reader) Status.read).2
  · simp only [hr, if_true]
    cases hfind : ((dbUpdateOne st.messages (byIdRecip mid reader) Status.read).1).find?
        (byId mid) with
    | none => rfl
    | some m =>
      by_cases hs : (alookup st.connected_users m.sender).isSome
      · simp [hfind, hs]
      · simp [hfind, hs]
  · simp [hr]

/-- C5: `mark_as_read` is safely guarded.  On an authenticated session: a
missing `message_id` key or a syntactically invalid id is a silent no-op; if
no stored message has the given id with recipient equal to the reader, the
state is unchanged and nothing is emitted; if the conditional update
modifies zero rows (wrong recipient, nonexistent, or already Read), the
state is unchanged and no notification is emitted to anyone; and calling
`mark_as_read` again with the same id after any first call changes nothing
further and emits nothing — the status idempotently converges to Read. -/
theorem mark_as_read_guarded (st : ServerState) (sid : Nat) (reader : String) (mid : Nat)
    (hsu : alookup st.session_users sid = some reader) :
    mark_as_read st sid none = (st, [])
    ∧ mark_as_read st sid (some none) = (st, [])
    ∧ ((∀ m ∈ st.messages, ¬(m.id = mid ∧ m.recipient = reader)) →
        mark_as_read st sid (some (some mid)) = (st, []))
    ∧ ((dbUpdateOne st.messages (byIdRecip mid reader) Status.read).2 = false →
        mark_as_read st sid (some (some mid)) = (st, []))
    ∧ mark_as_read (mark_as_read st sid (some (some mid))).1 sid (some (some mid))
        = ((mark_as_read st sid (some (some mid))).1, []) := by
  refine ⟨?_, ?_, ?_, ?_, ?_⟩
  · simp [mark_as_read, hsu]
  · simp [mark_as_read, hsu]
  · intro hno
    have hdb : dbUpdateOne st.messages (byIdRecip mid reader) Status.read
        = (st.messages, false) :=
      dbUpdateOne_no_match fun x hx => by simpa [byIdRecip] using hno x hx
    simp [mark_as_read, hsu, hdb, eta_messages]
  · intro hmod
    have h1 : (dbUpdateOne st.messages (byIdRecip mid reader) Status.read).1 = st.messages :=
      dbUpdateOne_not_modified hmod
    simp [mark_as_read, hsu, hmod, h1, eta_messages]
  · have hidem := dbUpdateOne_idem (p := byIdRecip mid reader) (s := Status.read)
      (fun m s' => rfl) st.messages
    rw [mark_as_read_state hsu]
    have hsu' : alookup ({ st with messages :=
        (dbUpdateOne st.messages (byIdRecip mid reader) Status.read).1 } :
        ServerState).session_users sid = some reader := hsu
    simp only [mark_as_read, hsu']
    simp [hidem]

/-- Witness for C5: user `a` on session 0 marks as read message 0, which was
sent by user `b` (online on session 7) to `a` with status Delivered. -/
theorem mark_as_read_guarded_witness :
    mark_as_read ⟨[("a", [0]), ("b", [7])], [(0, "a"), (7, "b")],
      [⟨0, "b", "a", "x", false, .delivered⟩], 1⟩ 0 none
      = (⟨[("a", [0]), ("b", [7])], [(0, "a"), (7, "b")],
          [⟨0, "b", "a", "x", false, .delivered⟩], 1⟩, [])
    ∧ mark_as_read ⟨[("a", [0]), ("b", [7])], [(0, "a"), (7, "b")],
        [⟨0, "b", "a", "x", false, .delivered⟩], 1⟩ 0 (some none)
      = (⟨[("a", [0]), ("b", [7])], [(0, "a"), (7, "b")],
          [⟨0, "b", "a", "x", false, .delivered⟩], 1⟩, [])
    ∧ ((∀ m ∈ (⟨[("a", [0]), ("b", [7])], [(0, "a"), (7, "b")],
          [⟨0, "b", "a", "x", false, .delivered⟩], 1⟩ : ServerState).messages,
          ¬(m.id = 0 ∧ m.recipient = "a")) →
        mark_as_read ⟨[("a", [0]), ("b", [7])], [(0, "a"), (7, "b")],
          [⟨0, "b", "a", "x", false, .delivered⟩], 1⟩ 0 (some (some 0))
        = (⟨[("a", [0]), ("b", [7])], [(0, "a"), (7, "b")],
            [⟨0, "b", "a", "x", false, .delivered⟩], 1⟩, []))
    ∧ ((dbUpdateOne (⟨[("a", [0]), ("b", [7])], [(0, "a"), (7, "b")],
          [⟨0, "b", "a", "x", false, .delivered⟩], 1⟩ : ServerState).messages
          (byIdRecip 0 "a") Status.read).2 = false →
        mark_as_read ⟨[("a", [0]), ("b", [7])], [(0, "a"), (7, "b")],
          [⟨0, "b", "a", "x", false, .delivered⟩], 1⟩ 0 (some (some 0))
        = (⟨[("a", [0]), ("b", [7])], [(0, "a"), (7, "b")],
            [⟨0, "b", "a", "x", false, .delivered⟩], 1⟩, []))
    ∧ mark_as_read (mark_as_read ⟨[("a", [0]), ("b", [7])], [(0, "a"), (7, "b")],
        [⟨0, "b", "a", "x", false, .delivered⟩], 1⟩ 0 (some (some 0))).1 0 (some (some 0))
      = ((mark_as_read ⟨[("a", [0]), ("b", [7])], [(0, "a"), (7, "b")],
          [⟨0, "b", "a", "x", false, .delivered⟩], 1⟩ 0 (some (some 0))).1, []) :=
  mark_as_read_guarded ⟨[("a", [0]), ("b", [7])], [(0, "a"), (7, "b")],
    [⟨0, "b", "a", "x", false, .delivered⟩], 1⟩ 0 "a" 0 (by rfl)

/-- One inbound WebSocket status-affecting operation: a `send_message` or a
`mark_as_read` event. -/
inductive WsOp where
  | send (sid : Nat) (data : Option MsgData)
  | mark (sid : Nat) (data : Option (Option Nat))

/-- Apply one WebSocket operation, keeping only the state. -/
def applyWs (reply : String → String → String) (st : ServerState) : WsOp → ServerState
  | .send sid d => (send_message reply st sid d).1
  | .mark sid d => (mark_as_read st sid d).1

/-- Run a sequence of WebSocket operations. -/
def runWs (reply : String → String → String) : ServerState → List WsOp → ServerState
  | st, [] => st
  | st, op :: ops => runWs reply (applyWs reply st op) ops

theorem deliverBranch_fst_cases (st : ServerState) (sid mid : Nat) (sender r c : String)
    (msgs0 : List Msg) :
    (deliverBranch st sid mid sender r c msgs0).1
      = (dbUpdateOne msgs0 (byId mid) Status.delivered).1
    ∨ (deliverBranch st sid mid sender r c msgs0).1 = msgs0 := by
  unfold deliverBranch
  split
  · left; rfl
  · split
    · left; rfl
    · right; rfl

theorem botBranch_fst_cases (reply : String → String → String) (st : ServerState)
    (sid mid : Nat) (sender c : String) (msgs1 : List Msg) :
    (botBranch reply st sid mid sender c msgs1).1
      = (dbUpdateOne ((dbUpdateOne msgs1 (byId mid) Status.read).1
          ++ [⟨mid + 1, BOT_EMAIL, sender, reply sender c, true, Status.sent⟩])
          (byId (mid + 1)) Status.read).1
    ∨ (botBranch reply st sid mid sender c msgs1).1
      = (dbUpdateOne msgs1 (byId mid) Status.read).1
          ++ [⟨mid + 1, BOT_EMAIL, sender, reply sender c, true, Status.sent⟩] := by
  unfold botBranch
  by_cases hson : (alookup st.connected_users sender).isSome
  · left; simp [hson]
  · right; simp [hson]

theorem botBranch_nextId (reply : String → String → String) (st : ServerState)
    (sid mid : Nat) (sender c : String) (msgs1 : List Msg) :
    (botBranch reply st sid mid sender c msgs1).2.1 = mid + 2 := by
  unfold botBranch
  by_cases hson : (alookup st.connected_users sender).isSome <;> simp [hson]

theorem sendCore_state (reply : String → String → String) (st : ServerState) (sid : Nat)
    (sender r c : String) :
    (sendCore reply st sid sender r c).1
      = { st with
          messages :=
            if r = BOT_EMAIL then
              (botBranch reply st sid st.nextId sender c
                (deliverBranch st sid st.nextId sender r c
                  (st.messages ++ [⟨st.nextId, sender, r, c, false, Status.sent⟩])).1).1
            else
              (deliverBranch st sid st.nextId sender r c
                (st.messages ++ [⟨st.nextId, sender, r, c, false, Status.sent⟩])).1,
          nextId := if r = BOT_EMAIL then st.nextId + 2 else st.nextId + 1 } := by
  by_cases hbot : r = BOT_EMAIL <;> simp [sendCore, hbot, botBranch_nextId]

theorem ids_lt_dbUpdateOne {msgs : List Msg} {p : Msg → Bool} {s : Status} {k : Nat}
    (h : ∀ x ∈ msgs, x.id < k) : ∀ y ∈ (dbUpdateOne msgs p s).1, y.id < k := by
  intro y hy
  obtain ⟨x, hx, hid⟩ := dbUpdateOne_ids y hy
  rw [hid]
  exact h x hx

/-- The send path preserves id freshness and keeps every pre-existing
message document untouched. -/
theorem sendCore_ids_mem (reply : String → String → String) (st : ServerState) (sid : Nat)
    (sender r c : String) (hIds : IdsFresh st) :
    IdsFresh (sendCore reply st sid sender r c).1
    ∧ ∀ m ∈ st.messages, m ∈ (sendCore reply st sid sender r c).1.messages := by
  rw [sendCore_state]
  have hm0 : ∀ x ∈ st.messages ++ [(⟨st.nextId, sender, r, c, false, Status.sent⟩ : Msg)],
      x.id < st.nextId + 1 := by
    intro x hx
    rcases List.mem_append.mp hx with hx' | hx'
    · exact Nat.lt_succ_of_lt (hIds x hx')
    · simp only [List.mem_singleton] at hx'
      subst hx'
      exact Nat.lt_succ_self _
  have hD : ∀ y ∈ (deliverBranch st sid st.nextId sender r c
      (st.messages ++ [⟨st.nextId, sender, r, c, false, Status.sent⟩])).1,
      y.id < st.nextId + 1 := by
    rcases deliverBranch_fst_cases st sid st.nextId sender r c
      (st.messages ++ [⟨st.nextId, sender, r, c, false, Status.sent⟩]) with hcase | hcase
    · rw [hcase]; exact ids_lt_dbUpdateOne hm0
    · rw [hcase]; exact hm0
  have hDmem : ∀ m ∈ st.messages,
      m ∈ (deliverBranch st sid st.nextId sender r c
        (st.messages ++ [⟨st.nextId, sender, r, c, false, Status.sent⟩])).1 := by
    intro m hm
    have hmm : m ∈ st.messages ++ [(⟨st.nextId, sender, r, c, false, Status.sent⟩ : Msg)] :=
      List.mem_append.mpr (Or.inl hm)
    rcases deliverBranch_fst_cases st sid st.nextId sender r c
      (st.messages ++ [⟨st.nextId, sender, r, c, false, Status.sent⟩]) with hcase | hcase
    · rw [hcase]
      exact dbUpdateOne_mem_of_neg (byId_false_of_fresh hIds (Nat.le_refl _) m hm) hmm
    · rw [hcase]; exact hmm
  by_cases hbot : r = BOT_EMAIL
  · simp only [hbot, if_true]
    have hB := botBranch_fst_cases reply st sid st.nextId sender c
      (deliverBranch st sid st.nextId sender BOT_EMAIL c
        (st.messages ++ [⟨st.nextId, sender, BOT_EMAIL, c, false, Status.sent⟩])).1
    rw [hbot] at hD hDmem
    have hAids : ∀ y ∈ (dbUpdateOne (deliverBranch st sid st.nextId sender BOT_EMAIL c
        (st.messages ++ [⟨st.nextId, sender, BOT_EMAIL, c, false, Status.sent⟩])).1
        (byId st.nextId) Status.read).1 ++
        [(⟨st.nextId + 1, BOT_EMAIL, sender, reply sender c, true, Status.sent⟩ : Msg)],
        y.id < st.nextId + 2 := by
      intro y hy
      rcases List.mem_append.mp hy with hy' | hy'
      · exact Nat.lt_succ_of_lt (ids_lt_dbUpdateOne hD y hy')
      · simp only [List.mem_singleton] at hy'
        subst hy'
        exact Nat.lt_succ_self _
    constructor
    · intro y hy
      rcases hB with hcase | hcase
      · rw [hcase] at hy
        exact ids_lt_dbUpdateOne hAids y hy
      · rw [hcase] at hy
        exact hAids y hy
    · intro m hm
      have h1 : m ∈ (dbUpdateOne (deliverBranch st sid st.nextId sender BOT_EMAIL c
          (st.messages ++ [⟨st.nextId, sender, BOT_EMAIL, c, false, Status.sent⟩])).1
          (byId st.nextId) Status.read).1 :=
        dbUpdateOne_mem_of_neg (byId_false_of_fresh hIds (Nat.le_refl _) m hm) (hDmem m hm)
      have h2 : m ∈ (dbUpdateOne (deliverBranch st sid st.nextId sender BOT_EMAIL c
          (st.messages ++ [⟨st.nextId, sender, BOT_EMAIL, c, false, Status.sent⟩])).1
          (byId st.nextId) Status.read).1 ++
          [(⟨st.nextId + 1, BOT_EMAIL, sender, reply sender c, true, Status.sent⟩ : Msg)] :=
        List.mem_append.mpr (Or.inl h1)
      rcases hB with hcase | hcase
      · rw [hcase]
        exact dbUpdateOne_mem_of_neg (byId_false_of_fresh hIds (Nat.le_succ _) m hm) h2
      · rw [hcase]; exact h2
  · simp only [hbot, if_false]
    exact ⟨fun y hy => hD y hy, hDmem⟩

/-- One WebSocket operation preserves id freshness and moves every stored
message's status only forward. -/
theorem wsStep_mono (reply : String → String → String) (st : ServerState) (op : WsOp)
    (hIds : IdsFresh st) :
    IdsFresh (applyWs reply st op)
    ∧ ∀ m ∈ st.messages, ∃ m2 ∈ (applyWs reply st op).messages,
        m2.id = m.id ∧ Status.le m.status m2.status := by
  cases op with
  | send sid d =>
    simp only [applyWs]
    cases halo : alookup st.session_users sid with
    | none =>
      simp only [send_message, halo]
      exact ⟨hIds, fun m hm => ⟨m, hm, rfl, Status.le_refl _⟩⟩
    | some sender =>
      cases d with
      | none =>
        simp only [send_message, halo]
        exact ⟨hIds, fun m hm => ⟨m, hm, rfl, Status.le_refl _⟩⟩
      | some md =>
        cases md with
        | mk mr mc =>
          cases mr with
          | none =>
            simp only [send_message, halo]
            exact ⟨hIds, fun m hm => ⟨m, hm, rfl, Status.le_refl _⟩⟩
          | some r =>
            cases mc with
            | none =>
              simp only [send_message, halo]
              exact ⟨hIds, fun m hm => ⟨m, hm, rfl, Status.le_refl _⟩⟩
            | some c =>
              rw [send_message_valid reply st sid sender r c halo]
              obtain ⟨h1, h2⟩ := sendCore_ids_mem reply st sid sender r c hIds
              exact ⟨h1, fun m hm => ⟨m, h2 m hm, rfl, Status.le_refl _⟩⟩
  | mark sid d =>
    simp only [applyWs]
    cases halo : alookup st.session_users sid with
    | none =>
      simp only [mark_as_read, halo]
      exact ⟨hIds, fun m hm => ⟨m, hm, rfl, Status.le_refl _⟩⟩
    | some user =>
      cases d with
      | none =>
        simp only [mark_as_read, halo]
        exact ⟨hIds, fun m hm => ⟨m, hm, rfl, Status.le_refl _⟩⟩
      | some md =>
        cases md with
        | none =>
          simp only [mark_as_read, halo]
          exact ⟨hIds, fun m hm => ⟨m, hm, rfl, Status.le_refl _⟩⟩
        | some mid =>
          rw [mark_as_read_state halo]
          constructor
          · intro y hy
            simp only at hy ⊢
            obtain ⟨x, hx, hid⟩ := dbUpdateOne_ids y hy
            rw [hid]
            exact hIds x hx
          · intro m hm
            obtain ⟨y, hy, hid, hor⟩ := dbUpdateOne_mem_shape
              (p := byIdRecip mid user) (s := Status.read) m hm
            refine ⟨y, hy, hid, ?_⟩
            rcases hor with rfl | rfl
            · exact Status.le_refl _
            · exact Status.le_read _

/-- Running any sequence of WebSocket operations moves every stored
message's status only forward. -/
theorem runWs_mono (reply : String → String → String) (ops : List WsOp) :
    ∀ st : ServerState, IdsFresh st →
      IdsFresh (runWs reply st ops)
      ∧ ∀ m ∈ st.messages, ∃ m2 ∈ (runWs reply st ops).messages,
          m2.id = m.id ∧ Status.le m.status m2.status := by
  induction ops with
  | nil =>
    intro st h
    exact ⟨h, fun m hm => ⟨m, hm, rfl, Status.le_refl _⟩⟩
  | cons op rest ih =>
    intro st h
    obtain ⟨h1, h2⟩ := wsStep_mono reply st op h
    obtain ⟨h3, h4⟩ := ih _ h1
    refine ⟨h3, fun m hm => ?_⟩
    obtain ⟨m2, hm2, hid2, hle2⟩ := h2 m hm
    obtain ⟨m3, hm3, hid3, hle3⟩ := h4 m2 hm2
    exact ⟨m3, hm3, by rw [hid3, hid2], Status.le_trans hle2 hle3⟩

/-- C3 (amended): under the WebSocket operations — `send_message` (with its
Delivered/Read delivery updates) and `mark_as_read` — a stored message's
status only moves forward in the order Sent → Delivered → Read, over any
finite sequence of operations from any id-fresh state.  The REST
`update_message` endpoint is NOT covered by this guarantee: it writes
whatever status the request body carries and can move a status backward
(see the accompanying counterexample). -/
theorem ws_status_moves_forward (reply : String → String → String) (ops : List WsOp)
    (st : ServerState) (hIds : IdsFresh st) (m : Msg) (hm : m ∈ st.messages) :
    ∃ m2 ∈ (runWs reply st ops).messages, m2.id = m.id ∧ Status.le m.status m2.status :=
  (runWs_mono reply ops st hIds).2 m hm

/-- Witness for the amended C3: a Delivered message reaches Read (forward)
after a `mark_as_read` and a bot send, never backward. -/
theorem ws_status_moves_forward_witness :
    ∃ m2 ∈ (runWs (fun _ _ => "r") ⟨[("a", [0]), ("b", [7])], [(0, "a"), (7, "b")],
        [⟨0, "b", "a", "x", false, .delivered⟩], 1⟩
        [WsOp.mark 0 (some (some 0)), WsOp.send 0 (some ⟨some BOT_EMAIL, some "hi"⟩)]).messages,
      m2.id = 0 ∧ Status.le Status.delivered m2.status :=
  ws_status_moves_forward (fun _ _ => "r")
    [WsOp.mark 0 (some (some 0)), WsOp.send 0 (some ⟨some BOT_EMAIL, some "hi"⟩)]
    ⟨[("a", [0]), ("b", [7])], [(0, "a"), (7, "b")],
      [⟨0, "b", "a", "x", false, .delivered⟩], 1⟩
    (by decide) ⟨0, "b", "a", "x", false, .delivered⟩ (by decide)

/-- C6 (amended): on an authenticated session, `send_message` rejects — with
an `error` event to the sender only, no persist and no status update — a
payload that is missing entirely or lacks the `content` (or `recipient`)
key; an empty-string `content`, however, passes this validation: for every
content value, including `""`, the first action is the persist of the
message with that content and status Sent. -/
theorem send_message_missing_content_rejected (reply : String → String → String)
    (st : ServerState) (sid : Nat) (sender r : String)
    (hsu : alookup st.session_users sid = some sender) :
    send_message reply st sid (some ⟨some r, none⟩)
      = (st, [.emit (.error sid "Invalid message data")])
    ∧ send_message reply st sid none = (st, [.emit (.error sid "Invalid message data")])
    ∧ ∀ c, (send_message reply st sid (some ⟨some r, some c⟩)).2.head?
        = some (.insert ⟨st.nextId, sender, r, c, false, Status.sent⟩) := by
  refine ⟨by simp [send_message, hsu], by simp [send_message, hsu], fun c => ?_⟩
  rw [send_message_valid reply st sid sender r c hsu]
  simp [sendCore]

/-- Witness for the amended C6: user `a` on session 0, recipient `b`; the
acceptance conjunct instantiated at the empty content shows the empty
message is persisted. -/
theorem send_message_missing_content_rejected_witness :
    send_message (fun _ _ => "r") ⟨[("a", [0])], [(0, "a")], [], 0⟩ 0 (some ⟨some "b", none⟩)
      = (⟨[("a", [0])], [(0, "a")], [], 0⟩, [.emit (.error 0 "Invalid message data")])
    ∧ send_message (fun _ _ => "r") ⟨[("a", [0])], [(0, "a")], [], 0⟩ 0 none
      = (⟨[("a", [0])], [(0, "a")], [], 0⟩, [.emit (.error 0 "Invalid message data")])
    ∧ ∀ c, (send_message (fun _ _ => "r") ⟨[("a", [0])], [(0, "a")], [], 0⟩ 0
        (some ⟨some "b", some c⟩)).2.head?
        = some (.insert ⟨0, "a", "b", c, false, Status.sent⟩) :=
  send_message_missing_content_rejected (fun _ _ => "r")
    ⟨[("a", [0])], [(0, "a")], [], 0⟩ 0 "a" "b" (by rfl)

theorem setAdd_ne_nil (s : List Nat) (x : Nat) : setAdd s x ≠ [] := by
  unfold setAdd
  by_cases hx : x ∈ s
  · simp only [hx, if_true]
    intro h
    rw [h] at hx
    cases hx
  · simp [hx]

theorem setAdd_nodup {s : List Nat} (h : s.Nodup) (x : Nat) : (setAdd s x).Nodup := by
  unfold setAdd
  by_cases hx : x ∈ s
  · simp [hx, h]
  · simp only [hx, if_false]
    rw [List.nodup_append]
    refine ⟨h, List.nodup_singleton x, ?_⟩
    intro a ha hax
    simp only [List.mem_singleton] at hax
    subst hax
    exact hx ha

theorem mem_setAdd_self (s : List Nat) (x : Nat) : x ∈ setAdd s x := by
  unfold setAdd
  by_cases hx : x ∈ s <;> simp [hx]

theorem mem_setAdd_iff {s : List Nat} {x y : Nat} : y ∈ setAdd s x ↔ y ∈ s ∨ y = x := by
  unfold setAdd
  by_cases hx : x ∈ s
  · simp only [hx, if_true]
    exact ⟨Or.inl, fun h => h.elim id fun hy => hy ▸ hx⟩
  · simp [hx, List.mem_append]

theorem alookup_cons {α β : Type} [DecidableEq α] (a : α) (b : β) (rest : List (α × β))
    (k : α) : alookup ((a, b) :: rest) k = if a = k then some b else alookup rest k := rfl

theorem alookup_eq_none_of_not_key {α β : Type} [DecidableEq α] :
    ∀ {l : List (α × β)} {k : α}, k ∉ l.map Prod.fst → alookup l k = none := by
  intro l
  induction l with
  | nil => intro k _; rfl
  | cons p rest ih =>
    intro k hk
    obtain ⟨a, b⟩ := p
    simp only [List.map_cons, List.mem_cons, not_or] at hk
    have hne : ¬a = k := fun h => hk.1 h.symm
    rw [alookup_cons, if_neg hne]
    exact ih hk.2

theorem suSet_nil (sid : Nat) (u : String) : suSet [] sid u = [(sid, u)] := rfl

theorem suSet_cons_eq {a sid : Nat} (h : a = sid) (b : String) (rest : List (Nat × String))
    (u : String) : suSet ((a, b) :: rest) sid u = (sid, u) :: rest := by
  simp only [suSet]
  rw [if_pos h]

theorem suSet_cons_ne {a sid : Nat} (h : ¬a = sid) (b : String) (rest : List (Nat × String))
    (u : String) : suSet ((a, b) :: rest) sid u = (a, b) :: suSet rest sid u := by
  simp only [suSet]
  rw [if_neg h]

theorem suRemove_nil (sid : Nat) : suRemove [] sid = [] := rfl

theorem suRemove_cons_eq {a sid : Nat} (h : a = sid) (b : String)
    (rest : List (Nat × String)) : suRemove ((a, b) :: rest) sid = rest := by
  simp only [suRemove]
  rw [if_pos h]

theorem suRemove_cons_ne {a sid : Nat} (h : ¬a = sid) (b : String)
    (rest : List (Nat × String)) :
    suRemove ((a, b) :: rest) sid = (a, b) :: suRemove rest sid := by
  simp only [suRemove]
  rw [if_neg h]

theorem cuAdd_nil (u : String) (sid : Nat) : cuAdd [] u sid = [(u, [sid])] := rfl

theorem cuAdd_cons_eq {w u : String} (h : w = u) (l : List Nat)
    (rest : List (String × List Nat)) (sid : Nat) :
    cuAdd ((w, l) :: rest) u sid = (w, setAdd l sid) :: rest := by
  simp only [cuAdd]
  rw [if_pos h]

theorem cuAdd_cons_ne {w u : String} (h : ¬w = u) (l : List Nat)
    (rest : List (String × List Nat)) (sid : Nat) :
    cuAdd ((w, l) :: rest) u sid = (w, l) :: cuAdd rest u sid := by
  simp only [cuAdd]
  rw [if_neg h]

theorem cuRemove_nil (u : String) (sid : Nat) : cuRemove [] u sid = [] := rfl

theorem cuRemove_cons_eq {w u : String} (h : w = u) (l : List Nat)
    (rest : List (String × List Nat)) (sid : Nat) :
    cuRemove ((w, l) :: rest) u sid
      = if l.erase sid = [] then rest else (w, l.erase sid) :: rest := by
  simp only [cuRemove]
  rw [if_pos h]

theorem cuRemove_cons_ne {w u : String} (h : ¬w = u) (l : List Nat)
    (rest : List (String × List Nat)) (sid : Nat) :
    cuRemove ((w, l) :: rest) u sid = (w, l) :: cuRemove rest u sid := by
  simp only [cuRemove]
  rw [if_neg h]

theorem alookup_suSet (su : List (Nat × String)) (sid : Nat) (u : String) (s : Nat) :
    alookup (suSet su sid u) s = if s = sid then some u else alookup su s := by
  induction su with
  | nil =>
    rw [suSet_nil, alookup_cons]
    by_cases h : s = sid
    · rw [if_pos h.symm, if_pos h]
    · rw [if_neg (fun hc : sid = s => h hc.symm), if_neg h]
  | cons p rest ih =>
    obtain ⟨a, b⟩ := p
    by_cases ha : a = sid
    · rw [suSet_cons_eq ha, alookup_cons]
      by_cases hs : s = sid
      · rw [if_pos hs.symm, if_pos hs]
      · rw [if_neg (fun hc : sid = s => hs hc.symm), if_neg hs, alookup_cons,
          if_neg (fun hc : a = s => hs (hc.symm.trans ha))]
    · rw [suSet_cons_ne ha, alookup_cons]
      by_cases hs : a = s
      · rw [if_pos hs, if_neg (fun hc : s = sid => ha (hs.trans hc)), alookup_cons,
          if_pos hs]
      · rw [if_neg hs, ih]
        by_cases h2 : s = sid
        · rw [if_pos h2, if_pos h2]
        · rw [if_neg h2, if_neg h2, alookup_cons, if_neg hs]

theorem alookup_suRemove {su : List (Nat × String)}
    (hnd : (su.map Prod.fst).Nodup) (sid s : Nat) :
    alookup (suRemove su sid) s = if s = sid then none else alookup su s := by
  induction su with
  | nil =>
    rw [suRemove_nil]
    by_cases h : s = sid
    · rw [if_pos h]
      rfl
    · rw [if_neg h]
  | cons p rest ih =>
    obtain ⟨a, b⟩ := p
    simp only [List.map_cons, List.nodup_cons] at hnd
    by_cases ha : a = sid
    · rw [suRemove_cons_eq ha]
      by_cases hs : s = sid
      · rw [if_pos hs, hs, ← ha]
        exact alookup_eq_none_of_not_key hnd.1
      · rw [if_neg hs, alookup_cons, if_neg (fun hc : a = s => hs (hc.symm.trans ha))]
    · rw [suRemove_cons_ne ha, alookup_cons]
      by_cases hs : a = s
      · rw [if_pos hs, if_neg (fun hc : s = sid => ha (hs.trans hc)), alookup_cons,
          if_pos hs]
      · rw [if_neg hs, ih hnd.2]
        by_cases h2 : s = sid
        · rw [if_pos h2, if_pos h2]
        · rw [if_neg h2, if_neg h2, alookup_cons, if_neg hs]

theorem alookup_cuAdd (cu : List (String × List Nat)) (u : String) (sid : Nat) (v : String) :
    alookup (cuAdd cu u sid) v
      = if v = u then some (setAdd ((alookup cu u).getD []) sid) else alookup cu v := by
  induction cu with
  | nil =>
    rw [cuAdd_nil, alookup_cons]
    by_cases h : v = u
    · rw [if_pos h.symm, if_pos h]
      rfl
    · rw [if_neg (fun hc : u = v => h hc.symm), if_neg h]
  | cons p rest ih =>
    obtain ⟨w, l⟩ := p
    by_cases hw : w = u
    · rw [cuAdd_cons_eq hw, alookup_cons]
      by_cases hv : v = u
      · rw [if_pos (hw.trans hv.symm), if_pos hv, alookup_cons, if_pos hw]
        rfl
      · rw [if_neg (fun hc : w = v => hv (hc.symm.trans hw)), if_neg hv, alookup_cons,
          if_neg (fun hc : w = v => hv (hc.symm.trans hw))]
    · rw [cuAdd_cons_ne hw, alookup_cons]
      by_cases hv : w = v
      · rw [if_pos hv, if_neg (fun hc : v = u => hw (hv.trans hc)), alookup_cons,
          if_pos hv]
      · rw [if_neg hv, ih]
        by_cases hvu : v = u
        · rw [if_pos hvu, if_pos hvu, alookup_cons, if_neg hw]
        · rw [if_neg hvu, if_neg hvu, alookup_cons, if_neg hv]

theorem alookup_cuRemove {cu : List (String × List Nat)}
    (hnd : (cu.map Prod.fst).Nodup) (u : String) (sid : Nat) (v : String) :
    alookup (cuRemove cu u sid) v
      = if v = u then
          (match alookup cu u with
           | none => none
           | some l => if l.erase sid = [] then none else some (l.erase sid))
        else alookup cu v := by
  induction cu with
  | nil =>
    rw [cuRemove_nil]
    by_cases h : v = u
    · rw [if_pos h]
      rfl
    · rw [if_neg h]
  | cons p rest ih =>
    obtain ⟨w, l⟩ := p
    simp only [List.map_cons, List.nodup_cons] at hnd
    by_cases hw : w = u
    · rw [cuRemove_cons_eq hw]
      by_cases he : l.erase sid = []
      · rw [if_pos he]
        by_cases hv : v = u
        · rw [if_pos hv, alookup_cons, if_pos hw]
          show alookup rest v = (if l.erase sid = [] then none else some (l.erase sid))
          rw [if_pos he, hv, ← hw]
          exact alookup_eq_none_of_not_key hnd.1
        · rw [if_neg hv, alookup_cons, if_neg (fun hc : w = v => hv (hc.symm.trans hw))]
      · rw [if_neg he, alookup_cons]
        by_cases hv : v = u
        · rw [if_pos (hw.trans hv.symm), if_pos hv, alookup_cons, if_pos hw]
          show some (l.erase sid) = (if l.erase sid = [] then none else some (l.erase sid))
          rw [if_neg he]
        · rw [if_neg (fun hc : w = v => hv (hc.symm.trans hw)), if_neg hv, alookup_cons,
            if_neg (fun hc : w = v => hv (hc.symm.trans hw))]
    · rw [cuRemove_cons_ne hw, alookup_cons]
      by_cases hv : w = v
      · rw [if_pos hv, if_neg (fun hc : v = u => hw (hv.trans hc)), alookup_cons,
          if_pos hv]
      · rw [if_neg hv, ih hnd.2]
        by_cases hvu : v = u
        · rw [if_pos hvu, if_pos hvu, alookup_cons, if_neg hw]
        · rw [if_neg hvu, if_neg hvu, alookup_cons, if_neg hv]

/-- Handle-set well-formedness of the registry entries: every presence entry
is a non-empty duplicate-free handle set. -/
def EntriesGood (cu : List (String × List Nat)) : Prop :=
  ∀ p ∈ cu, p.2 ≠ [] ∧ p.2.Nodup

theorem entriesGood_cuAdd {cu : List (String × List Nat)} (h : EntriesGood cu)
    (u : String) (sid : Nat) : EntriesGood (cuAdd cu u sid) := by
  induction cu with
  | nil =>
    intro p hp
    rw [cuAdd_nil] at hp
    simp only [List.mem_singleton] at hp
    subst hp
    exact ⟨by simp, List.nodup_singleton _⟩
  | cons q rest ih =>
    obtain ⟨w, l⟩ := q
    by_cases hw : w = u
    · rw [cuAdd_cons_eq hw]
      intro p hp
      rcases List.mem_cons.mp hp with rfl | hp'
      · have hq := h (w, l) (by simp)
        exact ⟨setAdd_ne_nil l sid, setAdd_nodup hq.2 sid⟩
      · exact h p (by simp [hp'])
    · rw [cuAdd_cons_ne hw]
      intro p hp
      rcases List.mem_cons.mp hp with rfl | hp'
      · exact h (w, l) (by simp)
      · exact ih (fun q hq => h q (by simp [hq])) p hp'

theorem entriesGood_cuRemove {cu : List (String × List Nat)} (h : EntriesGood cu)
    (u : String) (sid : Nat) : EntriesGood (cuRemove cu u sid) := by
  induction cu with
  | nil =>
    intro p hp
    rw [cuRemove_nil] at hp
    cases hp
  | cons q rest ih =>
    obtain ⟨w, l⟩ := q
    by_cases hw : w = u
    · rw [cuRemove_cons_eq hw]
      by_cases he : l.erase sid = []
      · rw [if_pos he]
        intro p hp
        exact h p (by simp [hp])
      · rw [if_neg he]
        intro p hp
        rcases List.mem_cons.mp hp with rfl | hp'
        · exact ⟨he, List.Nodup.erase sid (h (w, l) (by simp)).2⟩
        · exact h p (by simp [hp'])
    · rw [cuRemove_cons_ne hw]
      intro p hp
      rcases List.mem_cons.mp hp with rfl | hp'
      · exact h (w, l) (by simp)
      · exact ih (fun q hq => h q (by simp [hq])) p hp'

theorem keys_suSet_mem {su : List (Nat × String)} {sid k : Nat} {u : String} :
    k ∈ (suSet su sid u).map Prod.fst ↔ k ∈ su.map Prod.fst ∨ k = sid := by
  induction su with
  | nil =>
    rw [suSet_nil]
    simp
  | cons p rest ih =>
    obtain ⟨a, b⟩ := p
    by_cases ha : a = sid
    · rw [suSet_cons_eq ha]
      simp only [List.map_cons, List.mem_cons]
      subst ha
      tauto
    · rw [suSet_cons_ne ha]
      simp only [List.map_cons, List.mem_cons, ih]
      tauto

theorem keys_suSet_nodup {su : List (Nat × String)} (h : (su.map Prod.fst).Nodup)
    (sid : Nat) (u : String) : ((suSet su sid u).map Prod.fst).Nodup := by
  induction su with
  | nil =>
    rw [suSet_nil]
    simp
  | cons p rest ih =>
    obtain ⟨a, b⟩ := p
    simp only [List.map_cons, List.nodup_cons] at h
    by_cases ha : a = sid
    · rw [suSet_cons_eq ha]
      simp only [List.map_cons, List.nodup_cons]
      exact ⟨ha ▸ h.1, h.2⟩
    · rw [suSet_cons_ne ha]
      simp only [List.map_cons, List.nodup_cons]
      refine ⟨?_, ih h.2⟩
      intro hmem
      rcases keys_suSet_mem.mp hmem with hm | hm
      · exact h.1 hm
      · exact ha hm

theorem keys_suRemove_mem {su : List (Nat × String)} {sid k : Nat} :
    k ∈ (suRemove su sid).map Prod.fst → k ∈ su.map Prod.fst := by
  induction su with
  | nil =>
    rw [suRemove_nil]
    exact fun h => h
  | cons p rest ih =>
    obtain ⟨a, b⟩ := p
    by_cases ha : a = sid
    · rw [suRemove_cons_eq ha]
      intro hm
      simp only [List.map_cons, List.mem_cons]
      exact Or.inr hm
    · rw [suRemove_cons_ne ha]
      simp only [List.map_cons, List.mem_cons]
      rintro (hm | hm)
      · exact Or.inl hm
      · exact Or.inr (ih hm)

theorem keys_suRemove_nodup {su : List (Nat × String)} (h : (su.map Prod.fst).Nodup)
    (sid : Nat) : ((suRemove su sid).map Prod.fst).Nodup := by
  induction su with
  | nil =>
    rw [suRemove_nil]
    exact h
  | cons p rest ih =>
    obtain ⟨a, b⟩ := p
    simp only [List.map_cons, List.nodup_cons] at h
    by_cases ha : a = sid
    · rw [suRemove_cons_eq ha]
      exact h.2
    · rw [suRemove_cons_ne ha]
      simp only [List.map_cons, List.nodup_cons]
      exact ⟨fun hm => h.1 (keys_suRemove_mem hm), ih h.2⟩

theorem keys_cuAdd_mem {cu : List (String × List Nat)} {u k : String} {sid : Nat} :
    k ∈ (cuAdd cu u sid).map Prod.fst ↔ k ∈ cu.map Prod.fst ∨ k = u := by
  induction cu with
  | nil =>
    rw [cuAdd_nil]
    simp
  | cons p rest ih =>
    obtain ⟨w, l⟩ := p
    by_cases hw : w = u
    · rw [cuAdd_cons_eq hw]
      simp only [List.map_cons, List.mem_cons]
      subst hw
      tauto
    · rw [cuAdd_cons_ne hw]
      simp only [List.map_cons, List.mem_cons, ih]
      tauto

theorem keys_cuAdd_nodup {cu : List (String × List Nat)} (h : (cu.map Prod.fst).Nodup)
    (u : String) (sid : Nat) : ((cuAdd cu u sid).map Prod.fst).Nodup := by
  induction cu with
  | nil =>
    rw [cuAdd_nil]
    simp
  | cons p rest ih =>
    obtain ⟨w, l⟩ := p
    simp only [List.map_cons, List.nodup_cons] at h
    by_cases hw : w = u
    · rw [cuAdd_cons_eq hw]
      simp only [List.map_cons, List.nodup_cons]
      exact ⟨h.1, h.2⟩
    · rw [cuAdd_cons_ne hw]
      simp only [List.map_cons, List.nodup_cons]
      refine ⟨?_, ih h.2⟩
      intro hmem
      rcases keys_cuAdd_mem.mp hmem with hm | hm
      · exact h.1 hm
      · exact hw hm

theorem keys_cuRemove_mem {cu : List (String × List Nat)} {u k : String} {sid : Nat} :
    k ∈ (cuRemove cu u sid).map Prod.fst → k ∈ cu.map Prod.fst := by
  induction cu with
  | nil =>
    rw [cuRemove_nil]
    exact fun h => h
  | cons p rest ih =>
    obtain ⟨w, l⟩ := p
    by_cases hw : w = u
    · rw [cuRemove_cons_eq hw]
      by_cases he : l.erase sid = []
      · rw [if_pos he]
        intro hm
        simp only [List.map_cons, List.mem_cons]
        exact Or.inr hm
      · rw [if_neg he]
        simp only [List.map_cons, List.mem_cons]
        rintro (hm | hm)
        · exact Or.inl hm
        · exact Or.inr hm
    · rw [cuRemove_cons_ne hw]
      simp only [List.map_cons, List.mem_cons]
      rintro (hm | hm)
      · exact Or.inl hm
      · exact Or.inr (ih hm)

theorem keys_cuRemove_nodup {cu : List (String × List Nat)} (h : (cu.map Prod.fst).Nodup)
    (u : String) (sid : Nat) : ((cuRemove cu u sid).map Prod.fst).Nodup := by
  induction cu with
  | nil =>
    rw [cuRemove_nil]
    exact h
  | cons p rest ih =>
    obtain ⟨w, l⟩ := p
    simp only [List.map_cons, List.nodup_cons] at h
    by_cases hw : w = u
    · rw [cuRemove_cons_eq hw]
      by_cases he : l.erase sid = []
      · rw [if_pos he]
        exact h.2
      · rw [if_neg he]
        simp only [List.map_cons, List.nodup_cons]
        exact ⟨h.1, h.2⟩
    · rw [cuRemove_cons_ne hw]
      simp only [List.map_cons, List.nodup_cons]
      exact ⟨fun hm => h.1 (keys_cuRemove_mem hm), ih h.2⟩

/-- One registry operation: a session registering (successful authenticated
connect) or deregistering (disconnect). -/
inductive PresenceOp where
  | pconnect (sid : Nat) (user : String)
  | pdisconnect (sid : Nat)

/-- Apply one registry operation, keeping only the state. -/
def applyPresence (st : ServerState) : PresenceOp → ServerState
  | .pconnect sid u => (connect st sid u).1
  | .pdisconnect sid => (disconnect st sid).1

/-- Run a sequence of registry operations from a state. -/
def runPresence : ServerState → List PresenceOp → ServerState
  | st, [] => st
  | st, op :: ops => runPresence (applyPresence st op) ops

theorem entriesGood_connect {st : ServerState} (h : EntriesGood st.connected_users)
    (sid : Nat) (u : String) : EntriesGood (connect st sid u).1.connected_users := by
  simp only [connect]
  exact entriesGood_cuAdd h u sid

theorem entriesGood_disconnect {st : ServerState} (h : EntriesGood st.connected_users)
    (sid : Nat) : EntriesGood (disconnect st sid).1.connected_users := by
  unfold disconnect
  cases halo : alookup st.session_users sid with
  | none => exact h
  | some u =>
    simp only
    by_cases hcu : (alookup st.connected_users u).isSome
    · simp only [hcu, if_true]
      exact entriesGood_cuRemove h u sid
    · simp only [hcu, Bool.false_eq_true, if_false]
      exact h

theorem runPresence_entriesGood (ops : List PresenceOp) :
    ∀ st : ServerState, EntriesGood st.connected_users →
      EntriesGood (runPresence st ops).connected_users := by
  induction ops with
  | nil => exact fun st h => h
  | cons op rest ih =>
    intro st h
    apply ih
    cases op with
    | pconnect sid u => exact entriesGood_connect h sid u
    | pdisconnect sid => exact entriesGood_disconnect h sid

/-- C4: after any finite sequence of register (connect) / deregister
(disconnect) operations from the empty state, a user identity is a key of
the presence registry (`is_online`) iff its handle snapshot (`handles_for`)
is non-empty, for every identity; and no entry with an empty handle set is
ever left in the registry. -/
theorem presence_registry_invariant (ops : List PresenceOp) (u : String) :
    ((isOnline (runPresence initState ops) u = true)
      ↔ handlesFor (runPresence initState ops) u ≠ [])
    ∧ ∀ p ∈ (runPresence initState ops).connected_users, p.2 ≠ [] := by
  have hg : EntriesGood (runPresence initState ops).connected_users :=
    runPresence_entriesGood ops initState (by intro p hp; cases hp)
  refine ⟨?_, fun p hp => (hg p hp).1⟩
  unfold isOnline handlesFor
  cases hcu : alookup (runPresence initState ops).connected_users u with
  | none => simp
  | some l =>
    have hl := (hg (u, l) (alookup_mem hcu)).1
    simp [hl]

/-- Witness for C4: a single register of user `a` on session 0. -/
theorem presence_registry_invariant_witness :
    ((isOnline (runPresence initState [PresenceOp.pconnect 0 "a"]) "a" = true)
      ↔ handlesFor (runPresence initState [PresenceOp.pconnect 0 "a"]) "a" ≠ [])
    ∧ ∀ p ∈ (runPresence initState [PresenceOp.pconnect 0 "a"]).connected_users,
        p.2 ≠ [] :=
  presence_registry_invariant [PresenceOp.pconnect 0 "a"] "a"

/-- Mutual consistency of the two presence maps: a session id maps to a user
in `session_users` iff that user has a registry entry containing the id. -/
def Consistent (st : ServerState) : Prop :=
  ∀ sid u, alookup st.session_users sid = some u ↔
    ∃ l, alookup st.connected_users u = some l ∧ sid ∈ l

/-- The full presence well-formedness bundle carried through the
reachability induction. -/
def GoodPresence (st : ServerState) : Prop :=
  (st.connected_users.map Prod.fst).Nodup
  ∧ (st.session_users.map Prod.fst).Nodup
  ∧ EntriesGood st.connected_users
  ∧ Consistent st

theorem goodPresence_init : GoodPresence initState := by
  refine ⟨by simp [initState], by simp [initState], ?_, ?_⟩
  · intro p hp
    cases hp
  · intro sid u
    constructor
    · intro h
      cases h
    · rintro ⟨l, hl, _⟩
      cases hl

theorem goodPresence_connect {st : ServerState} (h : GoodPresence st) (sid : Nat)
    (user : String) (hfresh : alookup st.session_users sid = none) :
    GoodPresence (connect st sid user).1 := by
  obtain ⟨hcu, hsu, hent, hcons⟩ := h
  refine ⟨?_, ?_, ?_, ?_⟩
  · exact keys_cuAdd_nodup hcu user sid
  · exact keys_suSet_nodup hsu sid user
  · exact entriesGood_cuAdd hent user sid
  · intro s v
    show alookup (suSet st.session_users sid user) s = some v ↔
      ∃ l, alookup (cuAdd st.connected_users user sid) v = some l ∧ s ∈ l
    rw [alookup_suSet, alookup_cuAdd]
    by_cases hs : s = sid
    · rw [if_pos hs]
      constructor
      · intro hv
        injection hv with hv
        rw [if_pos hv.symm]
        exact ⟨_, rfl, hs ▸ mem_setAdd_self _ _⟩
      · rintro ⟨l, hl, hsl⟩
        by_cases hv : v = user
        · rw [hv]
        · rw [if_neg hv] at hl
          have hc := (hcons s v).mpr ⟨l, hl, hsl⟩
          rw [hs, hfresh] at hc
          cases hc
    · rw [if_neg hs]
      constructor
      · intro hv
        obtain ⟨l, hl, hsl⟩ := (hcons s v).mp hv
        by_cases hvu : v = user
        · rw [if_pos hvu]
          refine ⟨_, rfl, ?_⟩
          rw [hvu] at hl
          rw [hl]
          exact mem_setAdd_iff.mpr (Or.inl hsl)
        · rw [if_neg hvu]
          exact ⟨l, hl, hsl⟩
      · rintro ⟨l, hl, hsl⟩
        by_cases hvu : v = user
        · rw [if_pos hvu] at hl
          injection hl with hl
          rw [← hl] at hsl
          rcases mem_setAdd_iff.mp hsl with hmem | hmem
          · cases hcu0 : alookup st.connected_users user with
            | none =>
              rw [hcu0] at hmem
              cases hmem
            | some l0 =>
              rw [hcu0] at hmem
              rw [hvu]
              exact (hcons s user).mpr ⟨l0, hcu0, by simpa using hmem⟩
          · exact absurd hmem hs
        · rw [if_neg hvu] at hl
          exact (hcons s v).mpr ⟨l, hl, hsl⟩

theorem goodPresence_disconnect {st : ServerState} (h : GoodPresence st) (sid : Nat) :
    GoodPresence (disconnect st sid).1 := by
  obtain ⟨hcu, hsu, hent, hcons⟩ := h
  unfold disconnect
  cases halo : alookup st.session_users sid with
  | none => exact ⟨hcu, hsu, hent, hcons⟩
  | some u0 =>
    obtain ⟨l0, hl0, hsl0⟩ := (hcons sid u0).mp halo
    have hcuel : (alookup st.connected_users u0).isSome = true := by
      rw [hl0]
      rfl
    simp only [hcuel, if_true]
    refine ⟨?_, ?_, ?_, ?_⟩
    · exact keys_cuRemove_nodup hcu u0 sid
    · exact keys_suRemove_nodup hsu sid
    · exact entriesGood_cuRemove hent u0 sid
    · intro s v
      show alookup (suRemove st.session_users sid) s = some v ↔
        ∃ l, alookup (cuRemove st.connected_users u0 sid) v = some l ∧ s ∈ l
      rw [alookup_suRemove hsu, alookup_cuRemove hcu]
      by_cases hs : s = sid
      · rw [if_pos hs]
        constructor
        · intro hv
          cases hv
        · rintro ⟨l, hl, hsl⟩
          by_cases hv : v = u0
          · rw [if_pos hv, hl0] at hl
            have hl' : (if l0.erase sid = [] then none else some (l0.erase sid))
                = some l := hl
            by_cases he : l0.erase sid = []
            · rw [if_pos he] at hl'
              cases hl'
            · rw [if_neg he] at hl'
              injection hl' with hl'
              rw [← hl', hs] at hsl
              have hnd0 : l0.Nodup := (hent (u0, l0) (alookup_mem hl0)).2
              exact absurd (((List.Nodup.mem_erase_iff hnd0).mp hsl).1) (fun hh => hh rfl)
          · rw [if_neg hv] at hl
            have hc := (hcons s v).mpr ⟨l, hl, hsl⟩
            rw [hs, halo] at hc
            injection hc with hc
            exact absurd hc.symm hv
      · rw [if_neg hs]
        constructor
        · intro hv
          obtain ⟨l, hl, hsl⟩ := (hcons s v).mp hv
          by_cases hvu : v = u0
          · rw [if_pos hvu]
            rw [hvu, hl0] at hl
            injection hl with hl
            have hse : s ∈ l0.erase sid := by
              rw [← hl] at hsl
              exact (List.mem_erase_of_ne hs).mpr hsl
            have hne : l0.erase sid ≠ [] := by
              intro hE
              rw [hE] at hse
              cases hse
            rw [hl0]
            exact ⟨l0.erase sid, if_neg hne, hse⟩
          · rw [if_neg hvu]
            exact ⟨l, hl, hsl⟩
        · rintro ⟨l, hl, hsl⟩
          by_cases hvu : v = u0
          · rw [if_pos hvu, hl0] at hl
            have hl' : (if l0.erase sid = [] then none else some (l0.erase sid))
                = some l := hl
            by_cases he : l0.erase sid = []
            · rw [if_pos he] at hl'
              cases hl'
            · rw [if_neg he] at hl'
              injection hl' with hl'
              rw [← hl'] at hsl
              rw [hvu]
              exact (hcons s u0).mpr ⟨l0, hl0, List.mem_of_mem_erase hsl⟩
          · rw [if_neg hvu] at hl
            exact (hcons s v).mpr ⟨l, hl, hsl⟩

theorem send_message_presence (reply : String → String → String) (st : ServerState)
    (sid : Nat) (d : Option MsgData) :
    (send_message reply st sid d).1.connected_users = st.connected_users
    ∧ (send_message reply st sid d).1.session_users = st.session_users := by
  cases halo : alookup st.session_users sid with
  | none => simp [send_message, halo]
  | some sender =>
    cases d with
    | none => simp [send_message, halo]
    | some md =>
      obtain ⟨mr, mc⟩ := md
      cases mr with
      | none => simp [send_message, halo]
      | some r =>
        cases mc with
        | none => simp [send_message, halo]
        | some c =>
          rw [send_message_valid reply st sid sender r c halo, sendCore_state]
          exact ⟨rfl, rfl⟩

theorem mark_as_read_presence (st : ServerState) (sid : Nat) (d : Option (Option Nat)) :
    (mark_as_read st sid d).1.connected_users = st.connected_users
    ∧ (mark_as_read st sid d).1.session_users = st.session_users := by
  cases halo : alookup st.session_users sid with
  | none => simp [mark_as_read, halo]
  | some user =>
    cases d with
    | none => simp [mark_as_read, halo]
    | some md =>
      cases md with
      | none => simp [mark_as_read, halo]
      | some mid =>
        rw [mark_as_read_state halo]
        exact ⟨rfl, rfl⟩

theorem typing_state_eq (st : ServerState) (sid : Nat)
    (d : Option (Option String × Bool)) : (typing st sid d).1 = st := by
  cases halo : alookup st.session_users sid with
  | none => simp [typing, halo]
  | some sender =>
    cases d with
    | none => simp [typing, halo]
    | some p =>
      obtain ⟨orr, t⟩ := p
      cases orr with
      | none => simp [typing, halo]
      | some r =>
        by_cases hon : (alookup st.connected_users r).isSome <;> simp [typing, halo, hon]

theorem get_online_status_state_eq (st : ServerState) (sid : Nat) (d : Option String) :
    (get_online_status st sid d).1 = st := by
  cases d with
  | none => rfl
  | some e => rfl

theorem goodPresence_congr {st st' : ServerState}
    (hcu : st'.connected_users = st.connected_users)
    (hsu : st'.session_users = st.session_users) (h : GoodPresence st) :
    GoodPresence st' := by
  obtain ⟨h1, h2, h3, h4⟩ := h
  refine ⟨?_, ?_, ?_, ?_⟩
  · rw [hcu]; exact h1
  · rw [hsu]; exact h2
  · rw [hcu]; exact h3
  · intro s v
    rw [show alookup st'.session_users s = alookup st.session_users s by rw [hsu],
      show alookup st'.connected_users v = alookup st.connected_users v by rw [hcu]]
    exact h4 s v

/-- The states the WebSocket server can actually be in: the empty start
state, evolved by authenticated connects (transport-unique session ids),
disconnects, and the four authenticated event handlers. -/
inductive Reachable : ServerState → Prop where
  | init : Reachable initState
  | stepConnect (sid : Nat) (user : String) {st : ServerState} :
      Reachable st → alookup st.session_users sid = none →
      Reachable (connect st sid user).1
  | stepDisconnect (sid : Nat) {st : ServerState} :
      Reachable st → Reachable (disconnect st sid).1
  | stepSend (reply : String → String → String) (sid : Nat) (data : Option MsgData)
      {st : ServerState} : Reachable st → Reachable (send_message reply st sid data).1
  | stepMark (sid : Nat) (data : Option (Option Nat)) {st : ServerState} :
      Reachable st → Reachable (mark_as_read st sid data).1
  | stepTyping (sid : Nat) (data : Option (Option String × Bool)) {st : ServerState} :
      Reachable st → Reachable (typing st sid data).1
  | stepQuery (sid : Nat) (data : Option String) {st : ServerState} :
      Reachable st → Reachable (get_online_status st sid data).1

theorem reachable_goodPresence {st : ServerState} (h : Reachable st) : GoodPresence st := by
  induction h with
  | init => exact goodPresence_init
  | stepConnect sid user _ hfresh ih => exact goodPresence_connect ih sid user hfresh
  | stepDisconnect sid _ ih => exact goodPresence_disconnect ih sid
  | stepSend reply sid data _ ih =>
    exact goodPresence_congr (send_message_presence reply _ sid data).1
      (send_message_presence reply _ sid data).2 ih
  | stepMark sid data _ ih =>
    exact goodPresence_congr (mark_as_read_presence _ sid data).1
      (mark_as_read_presence _ sid data).2 ih
  | stepTyping sid data _ ih =>
    exact goodPresence_congr (by rw [typing_state_eq]) (by rw [typing_state_eq]) ih
  | stepQuery sid data _ ih =>
    exact goodPresence_congr (by rw [get_online_status_state_eq])
      (by rw [get_online_status_state_eq]) ih

/-- C10: in every reachable state — i.e. after any sequence of connect,
disconnect, send_message, mark_as_read, typing and presence-query handler
invocations from the empty start state — the two presence maps are mutually
consistent: a session id maps to user `u` in `session_users` iff `u` has a
`connected_users` entry whose handle set contains the id; consequently no
session id belongs to the handle sets of two different users. -/
theorem reachable_presence_consistent {st : ServerState} (h : Reachable st) :
    (∀ sid u, alookup st.session_users sid = some u ↔
      ∃ l, alookup st.connected_users u = some l ∧ sid ∈ l)
    ∧ ∀ s u v, s ∈ handlesFor st u → s ∈ handlesFor st v → u = v := by
  have hg := reachable_goodPresence h
  obtain ⟨_, _, _, hcons⟩ := hg
  refine ⟨hcons, ?_⟩
  intro s u v hu hv
  have hu' : ∃ l, alookup st.connected_users u = some l ∧ s ∈ l := by
    unfold handlesFor at hu
    cases hcu : alookup st.connected_users u with
    | none =>
      rw [hcu] at hu
      cases hu
    | some l =>
      rw [hcu] at hu
      exact ⟨l, rfl, by simpa using hu⟩
  have hv' : ∃ l, alookup st.connected_users v = some l ∧ s ∈ l := by
    unfold handlesFor at hv
    cases hcv : alookup st.connected_users v with
    | none =>
      rw [hcv] at hv
      cases hv
    | some l =>
      rw [hcv] at hv
      exact ⟨l, rfl, by simpa using hv⟩
  have h1 := (hcons s u).mpr hu'
  have h2 := (hcons s v).mpr hv'
  rw [h1] at h2
  injection h2

/-- Witness for C10: the state after user `a` connects on fresh session 0. -/
theorem reachable_presence_consistent_witness :
    (∀ sid u, alookup ((connect initState 0 "a").1).session_users sid = some u ↔
      ∃ l, alookup ((connect initState 0 "a").1).connected_users u = some l ∧ sid ∈ l)
    ∧ ∀ s u v, s ∈ handlesFor (connect initState 0 "a").1 u →
        s ∈ handlesFor (connect initState 0 "a").1 v → u = v :=
  reachable_presence_consistent (Reachable.stepConnect 0 "a" Reachable.init (by rfl))

end Chat
